import Mathlib

/-!
# Verification of the ReceiptScanner normalization pipeline

Shallow embedding of the receipt extraction endpoint
(`src/app/api/analyze-receipt/route.ts`, function `POST`) and the display
helpers (`src/components/receipt-scanner.tsx`, functions `formatValue` and
`calculateTotalDiscounts`).

Modelling conventions:
* JavaScript/JSON values are modelled by the inductive type `JsonValue`.
  Numbers are modelled as exact rationals (`Rat`); IEEE-754 rounding is out
  of scope of this development.
* Platform primitives used by the source (`JSON.parse`, `String.prototype.replace`,
  `String.prototype.trim`, `Number.prototype.toFixed`, `Number.parseFloat`,
  `JSON.stringify`, string coercion) are modelled by executable Lean functions
  that follow the ECMAScript behaviour on the value shapes the program uses.
* All recursive functions are structurally recursive (fuelled where needed) so
  that concrete runs reduce definitionally.
-/

/-- Model of a JavaScript/JSON value as produced by `JSON.parse`. -/
inductive JsonValue where
  | jnull
  | jbool (b : Bool)
  | jnum (q : Rat)
  | jstr (s : String)
  | jarr (elems : List JsonValue)
  | jobj (fields : List (String × JsonValue))

namespace JsonValue

/-- Property read `x.k`: `undefined` (`none`) unless `x` is an object with
field `k`.  (JSON-parsed arrays have no named properties, and property access
on primitives yields `undefined` for names they do not define.) -/
def getField : JsonValue → String → Option JsonValue
  | .jobj fs, k => (fs.find? (fun p => p.1 == k)).map (fun p => p.2)
  | _, _ => none

/-- Replace the binding of key `k` in a field list, or append it. -/
def setFieldsList (fs : List (String × JsonValue)) (k : String) (v : JsonValue) :
    List (String × JsonValue) :=
  if fs.any (fun p => p.1 == k) then
    fs.map (fun p => if p.1 == k then (k, v) else p)
  else fs ++ [(k, v)]

/-- Property write `x.k = v`: updates objects, is a silent no-op on
primitives (the program only ever assigns to fields it has just read as
truthy, so the primitive case is never exercised). -/
def setField : JsonValue → String → JsonValue → JsonValue
  | .jobj fs, k, v => .jobj (setFieldsList fs k v)
  | x, _, _ => x

/-- JavaScript truthiness of a value. -/
def truthy : JsonValue → Bool
  | .jnull => false
  | .jbool b => b
  | .jnum q => decide (q ≠ 0)
  | .jstr s => decide (s ≠ "")
  | .jarr _ => true
  | .jobj _ => true

/-- `Array.isArray`. -/
def isArray : JsonValue → Bool
  | .jarr _ => true
  | _ => false

/-- `typeof x === "object"` (true for objects, arrays and `null`). -/
def isObjectType : JsonValue → Bool
  | .jnull => true
  | .jarr _ => true
  | .jobj _ => true
  | _ => false

end JsonValue

/-- The shape coercion `route.ts` applies to the `taxes` and `discounts`
fields of the parsed completion:

```js
if (parsedData.taxes && !Array.isArray(parsedData.taxes)) {
  if (typeof parsedData.taxes === "object") { parsedData.taxes = [parsedData.taxes] }
  else { parsedData.taxes = [] }
}
```
-/
def ensureChargeArray (x : JsonValue) (k : String) : JsonValue :=
  match x.getField k with
  | none => x
  | some v =>
      if v.truthy && !v.isArray then
        if v.isObjectType then x.setField k (.jarr [v])
        else x.setField k (.jarr [])
      else x

/-- The shape coercion `route.ts` applies to `items`:

```js
if (parsedData.items && !Array.isArray(parsedData.items)) {
  parsedData.items = [parsedData.items]
}
```
-/
def ensureItemsArray (x : JsonValue) : JsonValue :=
  match x.getField "items" with
  | none => x
  | some v => if v.truthy && !v.isArray then x.setField "items" (.jarr [v]) else x

/-- The whole post-parse processing block of `route.ts`
(`if (parsedData) { ...taxes... ...discounts... ...items... }`). -/
def processParsedData (x : JsonValue) : JsonValue :=
  if x.truthy then
    ensureItemsArray (ensureChargeArray (ensureChargeArray x "taxes") "discounts")
  else x

/-- The value the charge coercion leaves at its key, as a function of the
value found there. -/
def coerceChargeVal (v : JsonValue) : JsonValue :=
  if v.truthy && !v.isArray then
    if v.isObjectType then .jarr [v] else .jarr []
  else v

/-- The value the items coercion leaves at `items`, as a function of the
value found there. -/
def coerceItemsVal (v : JsonValue) : JsonValue :=
  if v.truthy && !v.isArray then .jarr [v] else v

/-! ## String primitives used by the route -/

/-- The whitespace characters relevant to `String.prototype.trim` and JSON
(space, tab, line feed, carriage return). -/
def jsWhitespace (c : Char) : Bool := c == ' ' || c == '\t' || c == '\n' || c == '\r'

/-- Fuelled worker for `replaceAll`: removes every occurrence of `pat`,
scanning left to right over the original character list exactly as
`String.prototype.replace(/pat/g, "")` does (a single pass; replacements do
not create new matches). -/
def replaceAllGo (pat : List Char) : Nat → List Char → List Char
  | 0, s => s
  | _ + 1, [] => []
  | fuel + 1, c :: rest =>
      if pat ≠ [] ∧ pat.isPrefixOf (c :: rest) then
        replaceAllGo pat fuel ((c :: rest).drop pat.length)
      else c :: replaceAllGo pat fuel rest

/-- `s.replace(/pat/g, "")` for a literal pattern `pat`. -/
def replaceAll (pat s : List Char) : List Char := replaceAllGo pat s.length s

/-- `String.prototype.trim` on character lists. -/
def trimChars (l : List Char) : List Char :=
  (((l.dropWhile jsWhitespace).reverse).dropWhile jsWhitespace).reverse

/-- The characters of the pattern `/```json/g`. -/
def fenceJsonPat : List Char := ("```json").data

/-- The characters of the pattern `/```/g`. -/
def fencePat : List Char := ("```").data

/-- The clean-up the route applies to the completion before `JSON.parse`:

```js
generatedText.replace(/```json/g, "").replace(/```/g, "").trim()
```
-/
def cleanChars (l : List Char) : List Char :=
  trimChars (replaceAll fencePat (replaceAll fenceJsonPat l))

/-- `cleanChars` on strings. -/
def cleanedTextOf (s : String) : String := ⟨cleanChars s.data⟩

/-- A completion wrapped in a fenced code block, the shape the spec's
fence-stripping property quantifies over. -/
def fenceWrap (t : String) : String := "```json\n" ++ t ++ "\n```"

/-! ## A model of `JSON.parse`

A strict JSON parser (values: objects, arrays, strings, numbers, the three
literals; no trailing commas, no leading zeros, mandatory digits around the
decimal point and in exponents; only JSON whitespace).  Numbers are read as
exact rationals.  `\u` escapes denoting lone UTF-16 surrogates are outside
the `Char` scalar range and map to `'\0'`; no theorem below depends on that
corner. -/

/-- Digits of `l` read as a base-10 natural number. -/
def digitsToNat (l : List Char) : Nat := l.foldl (fun n c => n * 10 + (c.toNat - 48)) 0

/-- The exact rational with scaled-decimal representation
`sign * mantissa * 10 ^ e10`.  Built from integer arithmetic and `mkRat`
only, so that concrete parses reduce definitionally. -/
def decimalRat (neg : Bool) (mantissa : Nat) (e10 : Int) : Rat :=
  let sNum : Int := if neg then -(mantissa : Int) else (mantissa : Int)
  if 0 ≤ e10 then mkRat (sNum * (10 : Int) ^ e10.toNat) 1
  else mkRat sNum ((10 : Nat) ^ (-e10).toNat)

/-- A JSON number literal at the head of `l` (sign, integer part, optional
fraction, optional exponent), returning its exact rational value. -/
def parseJNumber (l : List Char) : Option (Rat × List Char) :=
  let signed : Bool × List Char :=
    match l with
    | '-' :: r => (true, r)
    | _ => (false, l)
  let neg := signed.1
  let l1 := signed.2
  let ds := l1.takeWhile Char.isDigit
  let r1 := l1.dropWhile Char.isDigit
  if ds.isEmpty then none
  else if 1 < ds.length ∧ ds.head? = some '0' then none
  else
    let step2 : Option (List Char × List Char) :=
      match r1 with
      | '.' :: r =>
          let fs := r.takeWhile Char.isDigit
          if fs.isEmpty then none
          else some (fs, r.dropWhile Char.isDigit)
      | _ => some ([], r1)
    match step2 with
    | none => none
    | some (fs, r2) =>
        let step3 : Option (Int × List Char) :=
          match r2 with
          | 'e' :: r3 | 'E' :: r3 =>
              let esigned : Bool × List Char :=
                match r3 with
                | '+' :: r4 => (false, r4)
                | '-' :: r4 => (true, r4)
                | _ => (false, r3)
              let es := esigned.2.takeWhile Char.isDigit
              if es.isEmpty then none
              else
                let e : Int := (digitsToNat es : Int)
                some (if esigned.1 then -e else e, esigned.2.dropWhile Char.isDigit)
          | _ => some (0, r2)
        match step3 with
        | none => none
        | some (e, rest) =>
            some (decimalRat neg (digitsToNat (ds ++ fs)) (e - (fs.length : Int)), rest)

/-- Value of one hexadecimal digit. -/
def hexVal (c : Char) : Option Nat :=
  if c.isDigit then some (c.toNat - 48)
  else if 'a' ≤ c ∧ c ≤ 'f' then some (c.toNat - 87)
  else if 'A' ≤ c ∧ c ≤ 'F' then some (c.toNat - 55)
  else none

/-- Body of a JSON string literal (after the opening quote), with escapes. -/
def parseJStringGo : Nat → List Char → Option (List Char × List Char)
  | 0, _ => none
  | _ + 1, [] => none
  | fuel + 1, c :: rest =>
      if c == '"' then some ([], rest)
      else if c == '\\' then
        match rest with
        | [] => none
        | e :: rest2 =>
            let esc : Option (Char × List Char) :=
              if e == '"' then some ('"', rest2)
              else if e == '\\' then some ('\\', rest2)
              else if e == '/' then some ('/', rest2)
              else if e == 'b' then some ('\x08', rest2)
              else if e == 'f' then some ('\x0c', rest2)
              else if e == 'n' then some ('\n', rest2)
              else if e == 'r' then some ('\r', rest2)
              else if e == 't' then some ('\t', rest2)
              else if e == 'u' then
                match rest2 with
                | h1 :: h2 :: h3 :: h4 :: rest3 =>
                    match hexVal h1, hexVal h2, hexVal h3, hexVal h4 with
                    | some a, some b, some c2, some d =>
                        some (Char.ofNat (((a * 16 + b) * 16 + c2) * 16 + d), rest3)
                    | _, _, _, _ => none
                | _ => none
              else none
            match esc with
            | none => none
            | some (ch, rest3) =>
                match parseJStringGo fuel rest3 with
                | none => none
                | some (cs, r) => some (ch :: cs, r)
      else if c.toNat < 32 then none
      else
        match parseJStringGo fuel rest with
        | none => none
        | some (cs, r) => some (c :: cs, r)

mutual

/-- One JSON value at the head of the input (leading whitespace allowed). -/
def parseJValue : Nat → List Char → Option (JsonValue × List Char)
  | 0, _ => none
  | fuel + 1, l =>
      match l.dropWhile jsWhitespace with
      | 'n' :: r => if r.take 3 = ['u', 'l', 'l'] then some (.jnull, r.drop 3) else none
      | 't' :: r => if r.take 3 = ['r', 'u', 'e'] then some (.jbool true, r.drop 3) else none
      | 'f' :: r => if r.take 4 = ['a', 'l', 's', 'e'] then some (.jbool false, r.drop 4) else none
      | '"' :: r =>
          match parseJStringGo (r.length + 1) r with
          | none => none
          | some (cs, rest) => some (.jstr ⟨cs⟩, rest)
      | '[' :: r => parseJArrayItems fuel (r.dropWhile jsWhitespace) true []
      | '\x7b' :: r => parseJObjectItems fuel (r.dropWhile jsWhitespace) true []
      | c :: r =>
          if c == '-' || c.isDigit then
            match parseJNumber (c :: r) with
            | none => none
            | some (q, rest) => some (.jnum q, rest)
          else none
      | [] => none

/-- Elements of an array (input already past `[` and whitespace). -/
def parseJArrayItems : Nat → List Char → Bool → List JsonValue →
    Option (JsonValue × List Char)
  | 0, _, _, _ => none
  | fuel + 1, l, first, acc =>
      match l, first with
      | ']' :: r, true => some (.jarr acc.reverse, r)
      | _, _ =>
          match parseJValue fuel l with
          | none => none
          | some (v, rest) =>
              match rest.dropWhile jsWhitespace with
              | ']' :: r2 => some (.jarr (v :: acc).reverse, r2)
              | ',' :: r2 => parseJArrayItems fuel (r2.dropWhile jsWhitespace) false (v :: acc)
              | _ => none

/-- Members of an object (input already past the opening brace and
whitespace).  Duplicate keys overwrite in place, as in `JSON.parse`. -/
def parseJObjectItems : Nat → List Char → Bool → List (String × JsonValue) →
    Option (JsonValue × List Char)
  | 0, _, _, _ => none
  | fuel + 1, l, first, acc =>
      match l, first with
      | '\x7d' :: r, true => some (.jobj acc, r)
      | _, _ =>
          match l with
          | '"' :: r =>
              match parseJStringGo (r.length + 1) r with
              | none => none
              | some (kcs, rest) =>
                  match rest.dropWhile jsWhitespace with
                  | ':' :: r2 =>
                      match parseJValue fuel r2 with
                      | none => none
                      | some (v, rest2) =>
                          let acc2 := JsonValue.setFieldsList acc ⟨kcs⟩ v
                          match rest2.dropWhile jsWhitespace with
                          | '\x7d' :: r3 => some (.jobj acc2, r3)
                          | ',' :: r3 => parseJObjectItems fuel (r3.dropWhile jsWhitespace) false acc2
                          | _ => none
                  | _ => none
          | _ => none

end

/-- `JSON.parse`: one value, then only trailing whitespace; `none` models a
thrown `SyntaxError`. -/
def jsonParse (s : String) : Option JsonValue :=
  match parseJValue (2 * s.data.length + 2) s.data with
  | some (v, rest) => if rest.dropWhile jsWhitespace = [] then some v else none
  | none => none

/-! ## The response normalizer of `route.ts` -/

/-- The degraded payload the route returns when `JSON.parse` throws:
`{ raw: generatedText, error: "Could not parse structured data" }` (note:
`raw` receives the original completion text, not the cleaned text). -/
def parseFailureBody (generatedText : String) : JsonValue :=
  .jobj [("raw", .jstr generatedText), ("error", .jstr "Could not parse structured data")]

/-- The route's treatment of a completion text: clean-up, strict JSON parse,
shape coercion on success, degraded `raw`/`error` payload on failure. -/
def parseAndNormalize (generatedText : String) : JsonValue :=
  match jsonParse (cleanedTextOf generatedText) with
  | none => parseFailureBody generatedText
  | some parsedData => processParsedData parsedData

/-! ## Number rendering primitives

All are built from `Nat`/`Int` arithmetic on `num`/`den` so that concrete
runs reduce definitionally. -/

/-- The decimal digit character for `d` (callers always pass `d < 10`;
larger inputs clamp to `'9'`, keeping the result a digit unconditionally). -/
def digitChar (d : Nat) : Char :=
  match d with
  | 0 => '0' | 1 => '1' | 2 => '2' | 3 => '3' | 4 => '4'
  | 5 => '5' | 6 => '6' | 7 => '7' | 8 => '8' | _ => '9'

/-- Fuelled most-significant-first decimal digits accumulator. -/
def natToCharsGo : Nat → Nat → List Char → List Char
  | 0, _, acc => acc
  | f + 1, n, acc => if n = 0 then acc else natToCharsGo f (n / 10) (digitChar (n % 10) :: acc)

/-- Decimal notation of a natural number. -/
def natToChars (n : Nat) : List Char := if n = 0 then ['0'] else natToCharsGo (n + 1) n []

/-- Two-digit zero-padded decimal notation (for `m < 100`). -/
def pad2Chars (m : Nat) : List Char := if m < 10 then '0' :: natToChars m else natToChars m

/-- `Number.prototype.toFixed(2)`: the sign of `x` followed by the integer
nearest `100·|x|` (ties rounding up) rendered with its last two digits after
a decimal point.  `(200·a + den) / (2·den)` is `⌊100·(a/den) + 1/2⌋` over
naturals. -/
def toFixed2 (x : Rat) : String :=
  let n : Nat := (200 * x.num.natAbs + x.den) / (2 * x.den)
  let core : List Char := natToChars (n / 100) ++ '.' :: pad2Chars (n % 100)
  if x.num < 0 then ⟨'-' :: core⟩ else ⟨core⟩

/-- Fuelled fractional-digit long division: digits of `r / den` after the
point, stopping at remainder `0`. -/
def fracDigitsGo (den : Nat) : Nat → Nat → List Char
  | 0, _ => []
  | f + 1, r => if r = 0 then [] else digitChar (r * 10 / den) :: fracDigitsGo den f (r * 10 % den)

/-- JavaScript number-to-string coercion, exact for rationals whose decimal
expansion terminates within 40 digits (every value this pipeline builds has
a power-of-ten denominator, so is exact); longer expansions are truncated
and exponent notation for extreme magnitudes is not modelled. -/
def ratToString (q : Rat) : String :=
  let ip := q.num.natAbs / q.den
  let frac := fracDigitsGo q.den 40 (q.num.natAbs % q.den)
  let core := natToChars ip ++ (if frac.isEmpty then [] else '.' :: frac)
  if q.num < 0 then ⟨'-' :: core⟩ else ⟨core⟩

/-! ## String coercion and `JSON.stringify` -/

mutual

/-- ECMAScript `ToString` (`String(x)`, template-literal interpolation).
Arrays join their elements' coercions with `","` (`null` elements yielding
`""`); plain objects coerce to `"[object Object]"`. -/
def jsToString : JsonValue → String
  | .jnull => "null"
  | .jbool b => if b then "true" else "false"
  | .jnum q => ratToString q
  | .jstr s => s
  | .jarr l => String.intercalate "," (jsToStringElems l)
  | .jobj _ => "[object Object]"

/-- Element coercions for `Array.prototype.join`: `null` renders empty. -/
def jsToStringElems : List JsonValue → List String
  | [] => []
  | .jnull :: vs => "" :: jsToStringElems vs
  | v :: vs => jsToString v :: jsToStringElems vs

end

/-- One character of a JSON string literal, escaped as `JSON.stringify`
escapes it. -/
def hexDigitChar (d : Nat) : Char :=
  if d < 10 then digitChar d
  else match d with
       | 10 => 'a' | 11 => 'b' | 12 => 'c' | 13 => 'd' | 14 => 'e' | _ => 'f'

/-- JSON string escaping. -/
def escapeJsonChar (c : Char) : List Char :=
  if c == '"' then ['\\', '"']
  else if c == '\\' then ['\\', '\\']
  else if c == '\x08' then ['\\', 'b']
  else if c == '\x0c' then ['\\', 'f']
  else if c == '\n' then ['\\', 'n']
  else if c == '\r' then ['\\', 'r']
  else if c == '\t' then ['\\', 't']
  else if c.toNat < 32 then
    ['\\', 'u', '0', '0', digitChar (c.toNat / 16), hexDigitChar (c.toNat % 16)]
  else [c]

/-- A quoted, escaped JSON string literal. -/
def quoteJsonString (s : String) : String :=
  ⟨'"' :: (s.data.map escapeJsonChar).flatten ++ ['"']⟩

mutual

/-- `JSON.stringify` on JSON-parsed values (no `undefined` members, no
custom `toJSON`). -/
def jsonStringify : JsonValue → String
  | .jnull => "null"
  | .jbool b => if b then "true" else "false"
  | .jnum q => ratToString q
  | .jstr s => quoteJsonString s
  | .jarr l => "[" ++ String.intercalate "," (jsonStringifyElems l) ++ "]"
  | .jobj fs => "\x7b" ++ String.intercalate "," (jsonStringifyMembers fs) ++ "\x7d"

/-- Serialized elements of an array. -/
def jsonStringifyElems : List JsonValue → List String
  | [] => []
  | v :: vs => jsonStringify v :: jsonStringifyElems vs

/-- Serialized `"key":value` members of an object. -/
def jsonStringifyMembers : List (String × JsonValue) → List String
  | [] => []
  | p :: ps => (quoteJsonString p.1 ++ ":" ++ jsonStringify p.2) :: jsonStringifyMembers ps

end

/-! ## The display helper `formatValue` of `receipt-scanner.tsx` -/

/-- Strict equality test `value.type === "USD"`. -/
def isUSD : JsonValue → Bool
  | .jstr s => s == "USD"
  | _ => false

/-- `typeof a === "number" ? a.toFixed(2) : a`. -/
def renderAmount (a : JsonValue) : JsonValue :=
  match a with
  | .jnum q => .jstr (toFixed2 q)
  | other => other

/-- One element of the array branch of `formatValue`:

```js
if (typeof item === "object" && item.type && item.amount !== undefined) {
  return `${item.type}: ${typeof item.amount === "number" ? item.amount.toFixed(2) : item.amount}`
}
return JSON.stringify(item)
```
-/
def formatEntry (item : JsonValue) : String :=
  match item with
  | .jobj fs =>
      match (JsonValue.jobj fs).getField "type", (JsonValue.jobj fs).getField "amount" with
      | some ty, some am =>
          if ty.truthy then jsToString ty ++ ": " ++ jsToString (renderAmount am)
          else jsonStringify (.jobj fs)
      | _, _ => jsonStringify (.jobj fs)
  | v => jsonStringify v

/-- The helper `formatValue` of `receipt-scanner.tsx` (`none` models the
JavaScript `undefined` argument). -/
def formatValue : Option JsonValue → String
  | none => "-"
  | some .jnull => "-"
  | some (.jarr l) => String.intercalate ", " (l.map formatEntry)
  | some (.jobj fs) =>
      match (JsonValue.jobj fs).getField "amount" with
      | some am =>
          let fa := renderAmount am
          match (JsonValue.jobj fs).getField "type" with
          | some ty =>
              if ty.truthy then
                if isUSD ty then "$" ++ jsToString fa
                else jsToString fa ++ " " ++ jsToString ty
              else jsToString fa
          | none => jsToString fa
      | none => jsonStringify (.jobj fs)
  | some (.jnum q) => toFixed2 q
  | some v => jsToString v

/-- Decidable form of the spec's display pattern `^\d+\.\d\x7b2\x7d$`:
one or more digits, a point, exactly two digits. -/
def matchesTwoDecimal (s : String) : Bool :=
  match s.data.reverse with
  | d2 :: d1 :: '.' :: rest => d1.isDigit && d2.isDigit && !rest.isEmpty && rest.all Char.isDigit
  | _ => false

/-! ## The aggregation helper `calculateTotalDiscounts` of
`receipt-scanner.tsx` -/

/-- `Number.parseFloat(s)`: leading whitespace, optional sign, longest
decimal-literal prefix (digits, optional fraction, optional exponent);
`none` models `NaN`.  (`"Infinity"` is not representable in `Rat` and is
treated as unparseable; no receipt value takes that shape.) -/
def parseFloatOpt (s : String) : Option Rat :=
  let l := s.data.dropWhile jsWhitespace
  let signed : Bool × List Char :=
    match l with
    | '-' :: r => (true, r)
    | '+' :: r => (false, r)
    | _ => (false, l)
  let neg := signed.1
  let l1 := signed.2
  let d1 := l1.takeWhile Char.isDigit
  let r1 := l1.dropWhile Char.isDigit
  let frac : List Char × List Char :=
    match r1 with
    | '.' :: r => (r.takeWhile Char.isDigit, r.dropWhile Char.isDigit)
    | _ => ([], r1)
  let d2 := frac.1
  let r2 := frac.2
  if d1.isEmpty && d2.isEmpty then none
  else
    let e : Int :=
      match r2 with
      | 'e' :: r3 | 'E' :: r3 =>
          let esigned : Bool × List Char :=
            match r3 with
            | '+' :: r4 => (false, r4)
            | '-' :: r4 => (true, r4)
            | _ => (false, r3)
          let es := esigned.2.takeWhile Char.isDigit
          if es.isEmpty then 0
          else if esigned.1 then -(digitsToNat es : Int) else (digitsToNat es : Int)
      | _ => 0
    some (decimalRat neg (digitsToNat (d1 ++ d2)) (e - (d2.length : Int)))

/-- `typeof a === "number" ? a : Number.parseFloat(a) || 0`, where `a` is
`x.amount` (`none` = `undefined`, which coerces to the unparseable string
`"undefined"`). -/
def amountNum (a : Option JsonValue) : Rat :=
  match a with
  | some (.jnum q) => q
  | some v => (parseFloatOpt (jsToString v)).getD 0
  | none => 0

/-- The per-entry amount inside the `reduce` of `calculateTotalDiscounts`. -/
def entryAmount (d : JsonValue) : Rat := amountNum (d.getField "amount")

/-- The helper `calculateTotalDiscounts` of `receipt-scanner.tsx`
(the spec's `sumCharges`): 0 for falsy input, `reduce` over arrays, the
parsed `amount` of a single object carrying one, a bare number itself,
0 otherwise. -/
def calculateTotalDiscounts (discounts : Option JsonValue) : Rat :=
  match discounts with
  | none => 0
  | some v =>
      if v.truthy then
        match v with
        | .jarr l => l.foldl (fun total d => total + entryAmount d) 0
        | .jobj fs =>
            match (JsonValue.jobj fs).getField "amount" with
            | some a => amountNum (some a)
            | none => 0
        | .jnum q => q
        | _ => 0
      else 0

/-! ## IEEE-754 double-precision rounding model

`calculateTotalDiscounts` runs on JavaScript numbers, i.e. IEEE-754
binary64 values.  The following models binary64 round-to-nearest,
ties-to-even on the normal range: keep the sign, scale the magnitude into
`[2^52, 2^53)`, round to the nearest 53-bit integer significand, scale
back.  (Subnormal underflow and overflow to infinity lie far outside the
magnitudes any value below reaches and are not modelled.)  It exists to
test the permutation property against the float semantics of the source's
`reduce`, which exact rational addition would idealize away. -/

/-- Round to the nearest integer, ties to even. -/
def roundHalfEven (y : Rat) : Int :=
  let f := ⌊y⌋
  let r := y - (f : Rat)
  if r < 1/2 then f
  else if 1/2 < r then f + 1
  else if f % 2 = 0 then f else f + 1

/-- Round a real (rational) value to the nearest IEEE-754 binary64 double
(normal range). -/
def roundDouble (x : Rat) : Rat :=
  if x = 0 then 0
  else
    let m := |x|
    let e : Int := Int.log 2 m
    let mag : Rat := (roundHalfEven (m / (2 : Rat) ^ (e - 52)) : Rat) * (2 : Rat) ^ (e - 52)
    if x < 0 then -mag else mag

/-- IEEE-754 binary64 addition: the exact sum, rounded. -/
def addDouble (a b : Rat) : Rat := roundDouble (a + b)

/-- The per-entry amount as the double the program actually holds. -/
def entryAmountFP (d : JsonValue) : Rat := roundDouble (entryAmount d)

/-- `calculateTotalDiscounts` under IEEE-754 binary64 arithmetic: the same
case analysis as `calculateTotalDiscounts`, with the array `reduce`
accumulating through double additions. -/
def calculateTotalDiscountsFP (discounts : Option JsonValue) : Rat :=
  match discounts with
  | none => 0
  | some v =>
      if v.truthy then
        match v with
        | .jarr l => l.foldl (fun total d => addDouble total (entryAmountFP d)) 0
        | .jobj fs =>
            match (JsonValue.jobj fs).getField "amount" with
            | some a => roundDouble (amountNum (some a))
            | none => 0
        | .jnum q => roundDouble q
        | _ => 0
      else 0

/-! ## The endpoint `POST` of `route.ts` -/

/-- Outcome of the `fetch` to the completion service: the completion text
extracted from a 2xx response, or a non-2xx status code. -/
inductive UpstreamResult where
  | success (generatedText : String)
  | failure (statusCode : Nat)

/-- An HTTP response produced with `NextResponse.json`. -/
structure HttpResponse where
  status : Nat
  body : JsonValue

/-- `{ error: msg }`. -/
def errorBody (msg : String) : JsonValue := .jobj [("error", .jstr msg)]

/-- `String.prototype.trim`. -/
def trimString (s : String) : String := ⟨trimChars s.data⟩

/-- The `POST` handler of `route.ts`, as a function of the request body's
`text` field (`none` = absent) and of the completion service's behaviour.
The second component records whether the completion service was called.
A truthy non-string `text` makes `text.trim()` throw, which the outer
`catch` turns into a 500. -/
def POST (textField : Option JsonValue) (upstream : UpstreamResult) :
    HttpResponse × Bool :=
  match textField with
  | none => (⟨400, errorBody "No text provided"⟩, false)
  | some v =>
      if v.truthy then
        match v with
        | .jstr s =>
            if trimString s == "" then (⟨400, errorBody "No text provided"⟩, false)
            else
              match upstream with
              | .failure code => (⟨code, errorBody "Failed to analyze receipt"⟩, true)
              | .success gen => (⟨200, parseAndNormalize gen⟩, true)
        | _ => (⟨500, errorBody "Failed to process request"⟩, false)
      else (⟨400, errorBody "No text provided"⟩, false)

/-! ## Lemmas about field access and update -/

namespace JsonValue

theorem find?_cons_pos' {α : Type} (f : α → Bool) (a : α) (l : List α) (h : f a = true) :
    (a :: l).find? f = some a := by
  show (match f a with | true => some a | false => l.find? f) = some a
  rw [h]

theorem find?_cons_neg' {α : Type} (f : α → Bool) (a : α) (l : List α) (h : f a = false) :
    (a :: l).find? f = l.find? f := by
  show (match f a with | true => some a | false => l.find? f) = l.find? f
  rw [h]

theorem find?_map_set_self (k : String) (v : JsonValue)
    (fs : List (String × JsonValue)) (h : fs.any (fun p => p.1 == k) = true) :
    (fs.map (fun p => if p.1 == k then (k, v) else p)).find? (fun p => p.1 == k)
      = some (k, v) := by
  induction fs with
  | nil => simp at h
  | cons p ps ih =>
      rw [List.map_cons]
      by_cases hp : (p.1 == k) = true
      · rw [if_pos hp]
        exact find?_cons_pos' (fun p => p.1 == k) (k, v) _ (by simp)
      · have hpf : (p.1 == k) = false := by simpa using hp
        have hps : ps.any (fun p => p.1 == k) = true := by
          simp only [List.any_cons, Bool.or_eq_true] at h
          rcases h with h | h
          · exact absurd h hp
          · exact h
        rw [if_neg hp, find?_cons_neg' (fun p => p.1 == k) p _ hpf]
        exact ih hps

theorem find?_append_set_self (k : String) (v : JsonValue)
    (fs : List (String × JsonValue)) (h : fs.any (fun p => p.1 == k) = false) :
    (fs ++ [(k, v)]).find? (fun p => p.1 == k) = some (k, v) := by
  induction fs with
  | nil => exact find?_cons_pos' (fun p => p.1 == k) (k, v) _ (by simp)
  | cons p ps ih =>
      have hp : (p.1 == k) = false := by
        simp only [List.any_cons, Bool.or_eq_false_iff] at h
        exact h.1
      have hps : ps.any (fun p => p.1 == k) = false := by
        simp only [List.any_cons, Bool.or_eq_false_iff] at h
        exact h.2
      rw [List.cons_append, find?_cons_neg' (fun p => p.1 == k) p _ hp]
      exact ih hps

/-- Reading back the key just written. -/
theorem getField_setField_self (fs : List (String × JsonValue)) (k : String) (v : JsonValue) :
    ((JsonValue.jobj fs).setField k v).getField k = some v := by
  show (JsonValue.jobj (setFieldsList fs k v)).getField k = some v
  unfold setFieldsList
  by_cases h : fs.any (fun p => p.1 == k) = true
  · simp only [h, if_true, getField, find?_map_set_self k v fs h, Option.map_some']
  · have h' : fs.any (fun p => p.1 == k) = false := by
      revert h; cases fs.any (fun p => p.1 == k) <;> simp
    simp only [h', Bool.false_eq_true, if_false, getField,
      find?_append_set_self k v fs h', Option.map_some']

theorem find?_map_set_frame (k k' : String) (v : JsonValue) (hne : (k == k') = false)
    (fs : List (String × JsonValue)) :
    (fs.map (fun p => if p.1 == k then (k, v) else p)).find? (fun p => p.1 == k')
      = fs.find? (fun p => p.1 == k') := by
  induction fs with
  | nil => rfl
  | cons p ps ih =>
      rw [List.map_cons]
      by_cases hp : (p.1 == k) = true
      · have hpk : p.1 = k := eq_of_beq hp
        have hp' : (p.1 == k') = false := by rw [hpk]; exact hne
        rw [if_pos hp, find?_cons_neg' (fun p => p.1 == k') (k, v) _ (by simp [hne]),
          find?_cons_neg' (fun p => p.1 == k') p _ hp', ih]
      · by_cases hp' : (p.1 == k') = true
        · rw [if_neg hp, find?_cons_pos' (fun p => p.1 == k') p _ hp',
            find?_cons_pos' (fun p => p.1 == k') p _ hp']
        · have hpf' : (p.1 == k') = false := by simpa using hp'
          rw [if_neg hp, find?_cons_neg' (fun p => p.1 == k') p _ hpf',
            find?_cons_neg' (fun p => p.1 == k') p _ hpf', ih]

/-- Writing one key does not disturb another. -/
theorem getField_setField_frame (fs : List (String × JsonValue)) (k k' : String)
    (v : JsonValue) (hne : (k == k') = false) :
    ((JsonValue.jobj fs).setField k v).getField k' = (JsonValue.jobj fs).getField k' := by
  show (JsonValue.jobj (setFieldsList fs k v)).getField k' = _
  unfold setFieldsList
  by_cases h : fs.any (fun p => p.1 == k) = true
  · simp only [h, if_true, getField, find?_map_set_frame k k' v hne fs]
  · have h' : fs.any (fun p => p.1 == k) = false := by
      revert h; cases fs.any (fun p => p.1 == k) <;> simp
    simp only [h', Bool.false_eq_true, if_false, getField, List.find?_append]
    have : List.find? (fun p => p.1 == k') [(k, v)] = none := by
      simp [List.find?, hne]
    rw [this]
    cases fs.find? (fun p => p.1 == k') <;> rfl

/-- `setField` never changes the constructor (objects stay objects,
primitives are untouched), hence never changes truthiness. -/
theorem truthy_setField (x : JsonValue) (k : String) (v : JsonValue) :
    (x.setField k v).truthy = x.truthy := by
  cases x <;> rfl

/-- `getField` is `none` away from objects. -/
theorem getField_eq_none_of_not_jobj (x : JsonValue) (k : String)
    (h : ∀ fs, x ≠ .jobj fs) : x.getField k = none := by
  cases x with
  | jobj fs => exact absurd rfl (h fs)
  | jnull => rfl
  | jbool b => rfl
  | jnum q => rfl
  | jstr s => rfl
  | jarr l => rfl

end JsonValue

/-! ## Lemmas about the shape coercion -/

open JsonValue in
theorem getField_some_jobj {x : JsonValue} {k : String} {v : JsonValue}
    (h : x.getField k = some v) : ∃ fs, x = .jobj fs := by
  cases x <;> first
    | exact ⟨_, rfl⟩
    | simp [JsonValue.getField] at h

/-- The coerced value at a charge key never triggers the coercion again. -/
theorem coerceChargeVal_stable (v : JsonValue) :
    ((coerceChargeVal v).truthy && !(coerceChargeVal v).isArray) = false := by
  unfold coerceChargeVal
  by_cases h : (v.truthy && !v.isArray) = true
  · rw [if_pos h]
    by_cases ho : v.isObjectType = true
    · rw [if_pos ho]; rfl
    · rw [if_neg ho]; rfl
  · rw [if_neg h]
    simpa using h

/-- The coerced value at `items` never triggers the coercion again. -/
theorem coerceItemsVal_stable (v : JsonValue) :
    ((coerceItemsVal v).truthy && !(coerceItemsVal v).isArray) = false := by
  unfold coerceItemsVal
  by_cases h : (v.truthy && !v.isArray) = true
  · rw [if_pos h]; rfl
  · rw [if_neg h]; simpa using h

theorem ensureChargeArray_getField_self (fs : List (String × JsonValue)) (k : String)
    (v : JsonValue) (hget : (JsonValue.jobj fs).getField k = some v) :
    (ensureChargeArray (.jobj fs) k).getField k = some (coerceChargeVal v) := by
  simp only [ensureChargeArray, hget, coerceChargeVal]
  by_cases h : (v.truthy && !v.isArray) = true
  · rw [if_pos h, if_pos h]
    by_cases ho : v.isObjectType = true
    · rw [if_pos ho, if_pos ho, JsonValue.getField_setField_self]
    · rw [if_neg ho, if_neg ho, JsonValue.getField_setField_self]
  · rw [if_neg h, if_neg h, hget]

theorem ensureChargeArray_getField_frame (x : JsonValue) (k k' : String)
    (hne : (k == k') = false) :
    (ensureChargeArray x k).getField k' = x.getField k' := by
  cases hx : x.getField k with
  | none => simp only [ensureChargeArray, hx]
  | some v =>
      obtain ⟨fs, rfl⟩ := getField_some_jobj hx
      simp only [ensureChargeArray, hx]
      by_cases h : (v.truthy && !v.isArray) = true
      · rw [if_pos h]
        by_cases ho : v.isObjectType = true
        · rw [if_pos ho, JsonValue.getField_setField_frame _ _ _ _ hne]
        · rw [if_neg ho, JsonValue.getField_setField_frame _ _ _ _ hne]
      · rw [if_neg h]

theorem ensureChargeArray_truthy (x : JsonValue) (k : String) :
    (ensureChargeArray x k).truthy = x.truthy := by
  cases hx : x.getField k with
  | none => simp only [ensureChargeArray, hx]
  | some v =>
      simp only [ensureChargeArray, hx]
      by_cases h : (v.truthy && !v.isArray) = true
      · rw [if_pos h]
        by_cases ho : v.isObjectType = true
        · rw [if_pos ho, JsonValue.truthy_setField]
        · rw [if_neg ho, JsonValue.truthy_setField]
      · rw [if_neg h]

theorem ensureChargeArray_eq_self_of_none (x : JsonValue) (k : String)
    (h : x.getField k = none) : ensureChargeArray x k = x := by
  simp only [ensureChargeArray, h]

theorem ensureChargeArray_eq_self_of_stable (x : JsonValue) (k : String) (v : JsonValue)
    (hget : x.getField k = some v) (h : (v.truthy && !v.isArray) = false) :
    ensureChargeArray x k = x := by
  simp only [ensureChargeArray, hget]
  rw [if_neg (by simp [h])]

theorem ensureItemsArray_getField_self (fs : List (String × JsonValue))
    (v : JsonValue) (hget : (JsonValue.jobj fs).getField "items" = some v) :
    (ensureItemsArray (.jobj fs)).getField "items" = some (coerceItemsVal v) := by
  simp only [ensureItemsArray, hget, coerceItemsVal]
  by_cases h : (v.truthy && !v.isArray) = true
  · rw [if_pos h, if_pos h, JsonValue.getField_setField_self]
  · rw [if_neg h, if_neg h, hget]

theorem ensureItemsArray_getField_frame (x : JsonValue) (k' : String)
    (hne : ("items" == k') = false) :
    (ensureItemsArray x).getField k' = x.getField k' := by
  cases hx : x.getField "items" with
  | none => simp only [ensureItemsArray, hx]
  | some v =>
      obtain ⟨fs, rfl⟩ := getField_some_jobj hx
      simp only [ensureItemsArray, hx]
      by_cases h : (v.truthy && !v.isArray) = true
      · rw [if_pos h, JsonValue.getField_setField_frame _ _ _ _ hne]
      · rw [if_neg h]

theorem ensureItemsArray_truthy (x : JsonValue) :
    (ensureItemsArray x).truthy = x.truthy := by
  cases hx : x.getField "items" with
  | none => simp only [ensureItemsArray, hx]
  | some v =>
      simp only [ensureItemsArray, hx]
      by_cases h : (v.truthy && !v.isArray) = true
      · rw [if_pos h, JsonValue.truthy_setField]
      · rw [if_neg h]

theorem ensureItemsArray_eq_self_of_none (x : JsonValue)
    (h : x.getField "items" = none) : ensureItemsArray x = x := by
  simp only [ensureItemsArray, h]

theorem ensureItemsArray_eq_self_of_stable (x : JsonValue) (v : JsonValue)
    (hget : x.getField "items" = some v) (h : (v.truthy && !v.isArray) = false) :
    ensureItemsArray x = x := by
  simp only [ensureItemsArray, hget]
  rw [if_neg (by simp [h])]

/-! ## Lemmas about `processParsedData` -/

theorem processParsedData_not_truthy (x : JsonValue) (h : x.truthy = false) :
    processParsedData x = x := by
  simp only [processParsedData, h, Bool.false_eq_true, if_false]

theorem processParsedData_jobj (fs : List (String × JsonValue)) :
    processParsedData (.jobj fs)
      = ensureItemsArray (ensureChargeArray (ensureChargeArray (.jobj fs) "taxes") "discounts") := by
  simp only [processParsedData, JsonValue.truthy, if_true]

theorem processParsedData_not_jobj (x : JsonValue) (h : ∀ fs, x ≠ .jobj fs) :
    processParsedData x = x := by
  have hn : ∀ k, x.getField k = none := fun k => JsonValue.getField_eq_none_of_not_jobj x k h
  by_cases hx : x.truthy = true
  · simp only [processParsedData, hx, if_true]
    rw [ensureChargeArray_eq_self_of_none _ _ (hn "taxes"),
      ensureChargeArray_eq_self_of_none _ _ (hn "discounts"),
      ensureItemsArray_eq_self_of_none _ (hn "items")]
  · exact processParsedData_not_truthy x (by simpa using hx)

theorem processParsedData_getField_taxes (fs : List (String × JsonValue)) (v : JsonValue)
    (hget : (JsonValue.jobj fs).getField "taxes" = some v) :
    (processParsedData (.jobj fs)).getField "taxes" = some (coerceChargeVal v) := by
  rw [processParsedData_jobj,
    ensureItemsArray_getField_frame _ _ (by decide),
    ensureChargeArray_getField_frame _ _ _ (by decide)]
  exact ensureChargeArray_getField_self fs "taxes" v hget

theorem processParsedData_getField_discounts (fs : List (String × JsonValue)) (v : JsonValue)
    (hget : (JsonValue.jobj fs).getField "discounts" = some v) :
    (processParsedData (.jobj fs)).getField "discounts" = some (coerceChargeVal v) := by
  rw [processParsedData_jobj, ensureItemsArray_getField_frame _ _ (by decide)]
  have h1 : (ensureChargeArray (.jobj fs) "taxes").getField "discounts" = some v := by
    rw [ensureChargeArray_getField_frame _ _ _ (by decide)]
    exact hget
  obtain ⟨fs1, hfs1⟩ := getField_some_jobj h1
  rw [hfs1] at h1 ⊢
  exact ensureChargeArray_getField_self fs1 "discounts" v h1

theorem processParsedData_getField_items (fs : List (String × JsonValue)) (v : JsonValue)
    (hget : (JsonValue.jobj fs).getField "items" = some v) :
    (processParsedData (.jobj fs)).getField "items" = some (coerceItemsVal v) := by
  rw [processParsedData_jobj]
  have h1 : (ensureChargeArray (ensureChargeArray (.jobj fs) "taxes") "discounts").getField "items"
      = some v := by
    rw [ensureChargeArray_getField_frame _ _ _ (by decide),
      ensureChargeArray_getField_frame _ _ _ (by decide)]
    exact hget
  obtain ⟨fs1, hfs1⟩ := getField_some_jobj h1
  rw [hfs1] at h1 ⊢
  exact ensureItemsArray_getField_self fs1 v h1

theorem processParsedData_getField_other (x : JsonValue) (k' : String)
    (h1 : ("taxes" == k') = false) (h2 : ("discounts" == k') = false)
    (h3 : ("items" == k') = false) :
    (processParsedData x).getField k' = x.getField k' := by
  by_cases hx : x.truthy = true
  · simp only [processParsedData, hx, if_true]
    rw [ensureItemsArray_getField_frame _ _ h3,
      ensureChargeArray_getField_frame _ _ _ h2,
      ensureChargeArray_getField_frame _ _ _ h1]
  · rw [processParsedData_not_truthy x (by simpa using hx)]

theorem processParsedData_truthy (x : JsonValue) :
    (processParsedData x).truthy = x.truthy := by
  by_cases hx : x.truthy = true
  · simp only [processParsedData, hx, if_true]
    rw [ensureItemsArray_truthy, ensureChargeArray_truthy, ensureChargeArray_truthy]
    exact hx
  · rw [processParsedData_not_truthy x (by simpa using hx)]

theorem processParsedData_getField_taxes_none (fs : List (String × JsonValue))
    (hget : (JsonValue.jobj fs).getField "taxes" = none) :
    (processParsedData (.jobj fs)).getField "taxes" = none := by
  rw [processParsedData_jobj,
    ensureItemsArray_getField_frame _ _ (by decide),
    ensureChargeArray_getField_frame _ _ _ (by decide),
    ensureChargeArray_eq_self_of_none _ _ hget]
  exact hget

theorem processParsedData_getField_discounts_none (fs : List (String × JsonValue))
    (hget : (JsonValue.jobj fs).getField "discounts" = none) :
    (processParsedData (.jobj fs)).getField "discounts" = none := by
  rw [processParsedData_jobj, ensureItemsArray_getField_frame _ _ (by decide)]
  have h1 : (ensureChargeArray (.jobj fs) "taxes").getField "discounts" = none := by
    rw [ensureChargeArray_getField_frame _ _ _ (by decide)]
    exact hget
  rw [ensureChargeArray_eq_self_of_none _ _ h1]
  exact h1

theorem processParsedData_getField_items_none (fs : List (String × JsonValue))
    (hget : (JsonValue.jobj fs).getField "items" = none) :
    (processParsedData (.jobj fs)).getField "items" = none := by
  rw [processParsedData_jobj]
  have h1 : (ensureChargeArray (ensureChargeArray (.jobj fs) "taxes") "discounts").getField "items"
      = none := by
    rw [ensureChargeArray_getField_frame _ _ _ (by decide),
      ensureChargeArray_getField_frame _ _ _ (by decide)]
    exact hget
  rw [ensureItemsArray_eq_self_of_none _ h1]
  exact h1

/-! ## Claim C10 -/

/-- C10: the route's shape coercion is idempotent: applying the
taxes/discounts/items coercion block to an already-coerced parsed value
changes nothing; in particular a value already in canonical form passes
through unchanged. -/
theorem processParsedData_idempotent (x : JsonValue) :
    processParsedData (processParsedData x) = processParsedData x := by
  by_cases hobj : ∃ fs, x = .jobj fs
  case neg =>
    have h : ∀ fs, x ≠ .jobj fs := by push_neg at hobj; exact hobj
    rw [processParsedData_not_jobj x h, processParsedData_not_jobj x h]
  case pos =>
    obtain ⟨fs, rfl⟩ := hobj
    set y := processParsedData (.jobj fs) with hy
    have hyt : y.truthy = true := by rw [hy, processParsedData_truthy]; rfl
    have hTy : ensureChargeArray y "taxes" = y := by
      cases hget : (JsonValue.jobj fs).getField "taxes" with
      | none =>
          exact ensureChargeArray_eq_self_of_none _ _
            (by rw [hy]; exact processParsedData_getField_taxes_none fs hget)
      | some v =>
          refine ensureChargeArray_eq_self_of_stable _ _ (coerceChargeVal v) ?_
            (coerceChargeVal_stable v)
          rw [hy]; exact processParsedData_getField_taxes fs v hget
    have hDy : ensureChargeArray (ensureChargeArray y "taxes") "discounts" = y := by
      rw [hTy]
      cases hget : (JsonValue.jobj fs).getField "discounts" with
      | none =>
          exact ensureChargeArray_eq_self_of_none _ _
            (by rw [hy]; exact processParsedData_getField_discounts_none fs hget)
      | some v =>
          refine ensureChargeArray_eq_self_of_stable _ _ (coerceChargeVal v) ?_
            (coerceChargeVal_stable v)
          rw [hy]; exact processParsedData_getField_discounts fs v hget
    have hIy : ensureItemsArray (ensureChargeArray (ensureChargeArray y "taxes") "discounts")
        = y := by
      rw [hDy]
      cases hget : (JsonValue.jobj fs).getField "items" with
      | none =>
          exact ensureItemsArray_eq_self_of_none _
            (by rw [hy]; exact processParsedData_getField_items_none fs hget)
      | some v =>
          refine ensureItemsArray_eq_self_of_stable _ (coerceItemsVal v) ?_
            (coerceItemsVal_stable v)
          rw [hy]; exact processParsedData_getField_items fs v hget
    show processParsedData y = y
    simp only [processParsedData, hyt, if_true]
    exact hIy

theorem processParsedData_getField_charge (x : JsonValue) (k : String) (v : JsonValue)
    (hk : k = "taxes" ∨ k = "discounts") (hget : x.getField k = some v) :
    (processParsedData x).getField k = some (coerceChargeVal v) := by
  obtain ⟨fs, rfl⟩ := getField_some_jobj hget
  rcases hk with rfl | rfl
  · exact processParsedData_getField_taxes fs v hget
  · exact processParsedData_getField_discounts fs v hget

/-! ## Claim C1 -/

/-- C1 counterexample: the completion `{"taxes":""}` parses successfully and
its `taxes` field is present and neither an object nor an array, yet the
normalizer leaves it as `""` instead of replacing it with the empty array
(the coercion is guarded by JavaScript truthiness, and `""` is falsy). -/
theorem chargeField_coercion_counterexample :
    (parseAndNormalize "\x7b\"taxes\":\"\"\x7d").getField "taxes" = some (JsonValue.jstr "")
      ∧ JsonValue.jstr "" ≠ JsonValue.jarr [] :=
  ⟨rfl, fun h => JsonValue.noConfusion h⟩

/-- C1 (amended): for a parsed completion with a field `k ∈ \x7btaxes,
discounts\x7d` holding `v`: an array passes through unchanged; a *truthy*
non-array object becomes the one-element array `[v]`; a *truthy* value that
is neither object nor array becomes the empty array; a falsy value
(`0`, `""`, `false`, `null`) passes through unchanged. -/
theorem chargeField_coercion_cases (x : JsonValue) (k : String) (v : JsonValue)
    (hk : k = "taxes" ∨ k = "discounts") (hget : x.getField k = some v) :
    (processParsedData x).getField k =
      some (if v.isArray = true then v
            else if v.truthy = true then
              (if v.isObjectType = true then JsonValue.jarr [v] else JsonValue.jarr [])
            else v) := by
  rw [processParsedData_getField_charge x k v hk hget]
  congr 1
  cases ha : v.isArray <;> cases ht : v.truthy <;> cases ho : v.isObjectType <;>
    simp [coerceChargeVal, ha, ht, ho]

/-- C1 witness: the spec's round-trip example, a single
`\x7btype:"Sales Tax", amount:3.45\x7d` object at `taxes`, is wrapped into a
one-element array. -/
theorem chargeField_coercion_cases_witness :
    ((JsonValue.jobj [("taxes", JsonValue.jobj
        [("type", JsonValue.jstr "Sales Tax"), ("amount", JsonValue.jnum (mkRat 345 100))])]).getField "taxes"
      = some (JsonValue.jobj
          [("type", JsonValue.jstr "Sales Tax"), ("amount", JsonValue.jnum (mkRat 345 100))]))
    ∧ (processParsedData (JsonValue.jobj [("taxes", JsonValue.jobj
        [("type", JsonValue.jstr "Sales Tax"), ("amount", JsonValue.jnum (mkRat 345 100))])])).getField "taxes"
      = some (JsonValue.jarr [JsonValue.jobj
          [("type", JsonValue.jstr "Sales Tax"), ("amount", JsonValue.jnum (mkRat 345 100))]]) :=
  ⟨rfl, chargeField_coercion_cases
    (JsonValue.jobj [("taxes", JsonValue.jobj
      [("type", JsonValue.jstr "Sales Tax"), ("amount", JsonValue.jnum (mkRat 345 100))])])
    "taxes"
    (JsonValue.jobj [("type", JsonValue.jstr "Sales Tax"), ("amount", JsonValue.jnum (mkRat 345 100))])
    (Or.inl rfl) rfl⟩

/-! ## Claim C4 -/

/-- C4 counterexample: the completion `{"taxes":5}` parses to a record whose
`taxes` is the bare number `5`, and the normalizer replaces it with the
*empty* array — the amount is discarded, not carried. -/
theorem bareNumber_charge_counterexample :
    (parseAndNormalize "\x7b\"taxes\":5\x7d").getField "taxes" = some (JsonValue.jarr [])
      ∧ JsonValue.jarr [] ≠ JsonValue.jnum (mkRat 5 1) :=
  ⟨rfl, fun h => JsonValue.noConfusion h⟩

/-- C4 (amended): a bare *nonzero* number at `taxes`/`discounts` is not
accepted as-is by the coercion: it is replaced with the empty array and the
amount is lost (a bare `0` survives only because it is falsy). -/
theorem bareNumber_charge_discarded (x : JsonValue) (k : String) (q : Rat)
    (hk : k = "taxes" ∨ k = "discounts") (hget : x.getField k = some (.jnum q))
    (hq : q ≠ 0) :
    (processParsedData x).getField k = some (JsonValue.jarr []) := by
  rw [processParsedData_getField_charge x k _ hk hget]
  congr 1
  unfold coerceChargeVal
  rw [if_pos (by simp [JsonValue.truthy, JsonValue.isArray, hq]),
    if_neg (by simp [JsonValue.isObjectType])]

/-- C4 witness: a bare `5` at `discounts` is coerced to `[]`. -/
theorem bareNumber_charge_discarded_witness :
    ((JsonValue.jobj [("discounts", JsonValue.jnum (mkRat 5 1))]).getField "discounts"
        = some (JsonValue.jnum (mkRat 5 1)))
    ∧ mkRat 5 1 ≠ (0 : Rat)
    ∧ (processParsedData (JsonValue.jobj [("discounts", JsonValue.jnum (mkRat 5 1))])).getField
        "discounts" = some (JsonValue.jarr []) :=
  ⟨rfl, by decide,
    bareNumber_charge_discarded _ "discounts" (mkRat 5 1) (Or.inr rfl) rfl (by decide)⟩

/-! ## Claim C2 -/

/-- C2: for every completion text whose cleaned form is not valid JSON, the
route returns exactly `\x7braw: <original completion text>, error: "Could not
parse structured data"\x7d` — `raw` holds the original, unstripped text, no
other field is present, and no exception escapes (the embedding is a total
function). -/
theorem normalize_degraded (t : String)
    (h : jsonParse (cleanedTextOf t) = none) :
    parseAndNormalize t
      = JsonValue.jobj [("raw", JsonValue.jstr t),
          ("error", JsonValue.jstr "Could not parse structured data")] := by
  unfold parseAndNormalize
  rw [h]
  rfl

/-- C2 witness: the spec's example `"Sorry, I cannot help."`. -/
theorem normalize_degraded_witness :
    jsonParse (cleanedTextOf "Sorry, I cannot help.") = none
    ∧ parseAndNormalize "Sorry, I cannot help."
        = JsonValue.jobj [("raw", JsonValue.jstr "Sorry, I cannot help."),
            ("error", JsonValue.jstr "Could not parse structured data")] :=
  ⟨rfl, normalize_degraded "Sorry, I cannot help." rfl⟩

/-! ## Claim C3 -/

/-- C3 counterexample: the completion `{"error":"x","merchant":"y"}` is valid
JSON, so the route returns it (coerced) as-is: the result populates `error`
together with the structured field `merchant`, and has no `raw` — neither a
pure degraded record nor a record free of `raw`/`error`. -/
theorem degraded_invariant_counterexample :
    (parseAndNormalize "\x7b\"error\":\"x\",\"merchant\":\"y\"\x7d").getField "error"
        = some (JsonValue.jstr "x")
    ∧ (parseAndNormalize "\x7b\"error\":\"x\",\"merchant\":\"y\"\x7d").getField "merchant"
        = some (JsonValue.jstr "y")
    ∧ (parseAndNormalize "\x7b\"error\":\"x\",\"merchant\":\"y\"\x7d").getField "raw" = none :=
  ⟨rfl, rfl, rfl⟩

/-- C3 (amended): when the cleaned completion is not valid JSON the result
is exactly the two-field `raw`/`error` record (no structured field is
present); when it parses to `p` the result is the coerced `p`, which carries
`raw` or `error` only if the completion's own JSON supplied them — the
coercion never invents either field. -/
theorem degraded_invariant_cases (t : String) :
    (jsonParse (cleanedTextOf t) = none →
      parseAndNormalize t
        = JsonValue.jobj [("raw", JsonValue.jstr t),
            ("error", JsonValue.jstr "Could not parse structured data")]
      ∧ ∀ k ∈ (["merchant", "date", "total", "items", "paymentMethod", "taxes",
          "discounts"] : List String),
          (parseAndNormalize t).getField k = none)
    ∧ (∀ p, jsonParse (cleanedTextOf t) = some p →
        parseAndNormalize t = processParsedData p
        ∧ (p.getField "raw" = none → (parseAndNormalize t).getField "raw" = none)
        ∧ (p.getField "error" = none → (parseAndNormalize t).getField "error" = none)) := by
  constructor
  · intro h
    have he : parseAndNormalize t
        = JsonValue.jobj [("raw", JsonValue.jstr t),
            ("error", JsonValue.jstr "Could not parse structured data")] := by
      unfold parseAndNormalize
      rw [h]
      rfl
    refine ⟨he, ?_⟩
    intro k hk
    rw [he]
    fin_cases hk <;> rfl
  · intro p hp
    have he : parseAndNormalize t = processParsedData p := by
      unfold parseAndNormalize
      rw [hp]
    refine ⟨he, ?_, ?_⟩
    · intro hr
      rw [he, processParsedData_getField_other p "raw" (by decide) (by decide) (by decide)]
      exact hr
    · intro hr
      rw [he, processParsedData_getField_other p "error" (by decide) (by decide) (by decide)]
      exact hr

/-- C3 witness: the degraded branch at the non-JSON completion `"x"`. -/
theorem degraded_invariant_cases_witness :
    parseAndNormalize "x" = JsonValue.jobj [("raw", JsonValue.jstr "x"),
        ("error", JsonValue.jstr "Could not parse structured data")] :=
  ((degraded_invariant_cases "x").1 rfl).1

/-! ## Claim C9 -/

/-- C9: a request whose `text` field is absent, empty, or whitespace-only is
answered with status 400 and a body carrying an `error` field, and the
completion service is never called. -/
theorem emptyText_rejected (tf : Option JsonValue) (upstream : UpstreamResult)
    (h : tf = none ∨ ∃ s, tf = some (.jstr s) ∧ trimString s = "") :
    (POST tf upstream).1.status = 400
    ∧ (POST tf upstream).1.body.getField "error" = some (JsonValue.jstr "No text provided")
    ∧ (POST tf upstream).2 = false := by
  rcases h with rfl | ⟨s, rfl, hs⟩
  · exact ⟨rfl, rfl, rfl⟩
  · by_cases hse : s = ""
    · subst hse
      exact ⟨rfl, rfl, rfl⟩
    · have ht : (JsonValue.jstr s).truthy = true := by
        simp [JsonValue.truthy, hse]
      have hPOST : POST (some (.jstr s)) upstream
          = (⟨400, errorBody "No text provided"⟩, false) := by
        simp [POST, ht, hs]
      rw [hPOST]
      exact ⟨rfl, rfl, rfl⟩

/-- C9 witness: a whitespace-only `text`. -/
theorem emptyText_rejected_witness :
    trimString "   " = ""
    ∧ ((POST (some (JsonValue.jstr "   ")) (UpstreamResult.success "x")).1.status = 400
       ∧ (POST (some (JsonValue.jstr "   ")) (UpstreamResult.success "x")).1.body.getField "error"
           = some (JsonValue.jstr "No text provided")
       ∧ (POST (some (JsonValue.jstr "   ")) (UpstreamResult.success "x")).2 = false) :=
  ⟨rfl, emptyText_rejected (some (JsonValue.jstr "   ")) (UpstreamResult.success "x")
    (Or.inr ⟨"   ", rfl, rfl⟩)⟩

/-! ## Claims C6 and C7 -/

theorem foldl_add_entryAmount (l : List JsonValue) (a : Rat) :
    l.foldl (fun total d => total + entryAmount d) a = a + (l.map entryAmount).sum := by
  induction l generalizing a with
  | nil => simp
  | cons d ds ih => simp [List.foldl_cons, ih, add_assoc]

theorem calculateTotalDiscounts_jarr (l : List JsonValue) :
    calculateTotalDiscounts (some (.jarr l)) = (l.map entryAmount).sum := by
  simp [calculateTotalDiscounts, JsonValue.truthy, foldl_add_entryAmount]

/-- C6: the aggregation helper returns 0 for absent input and for the empty
array; for an array it returns the sum of the entries' numeric amounts
(a numeric `amount` contributes itself, a string `amount` contributes its
parsed decimal value with unparseable strings contributing 0); a single
object carrying an `amount` contributes that parsed amount; and a bare
number is returned as itself. -/
theorem sumCharges_cases :
    (calculateTotalDiscounts none = 0)
    ∧ (calculateTotalDiscounts (some (.jarr [])) = 0)
    ∧ (∀ l, calculateTotalDiscounts (some (.jarr l)) = (l.map entryAmount).sum)
    ∧ (∀ fs a, (JsonValue.jobj fs).getField "amount" = some a →
        calculateTotalDiscounts (some (.jobj fs)) = amountNum (some a))
    ∧ (∀ q : Rat, calculateTotalDiscounts (some (.jnum q)) = q)
    ∧ (∀ ty q, entryAmount (.jobj [("type", .jstr ty), ("amount", .jnum q)]) = q)
    ∧ (∀ ty s, entryAmount (.jobj [("type", .jstr ty), ("amount", .jstr s)])
        = (parseFloatOpt s).getD 0) := by
  refine ⟨rfl, rfl, calculateTotalDiscounts_jarr, ?_, ?_, fun ty q => rfl, fun ty s => rfl⟩
  · intro fs a hget
    simp [calculateTotalDiscounts, JsonValue.truthy, hget]
  · intro q
    by_cases hq : q = 0
    · subst hq
      rfl
    · have ht : (JsonValue.jnum q).truthy = true := by
        simp [JsonValue.truthy, hq]
      simp [calculateTotalDiscounts, ht]

/-- C6 witness: a single tagged object contributes its amount. -/
theorem sumCharges_cases_witness :
    ((JsonValue.jobj [("type", JsonValue.jstr "Member Discount"),
        ("amount", JsonValue.jnum (mkRat 5 1))]).getField "amount"
      = some (JsonValue.jnum (mkRat 5 1)))
    ∧ calculateTotalDiscounts (some (JsonValue.jobj [("type", JsonValue.jstr "Member Discount"),
        ("amount", JsonValue.jnum (mkRat 5 1))]))
        = amountNum (some (JsonValue.jnum (mkRat 5 1))) :=
  ⟨rfl, sumCharges_cases.2.2.2.1
    [("type", JsonValue.jstr "Member Discount"), ("amount", JsonValue.jnum (mkRat 5 1))]
    (JsonValue.jnum (mkRat 5 1)) rfl⟩

/-- C7 (amended): under exact (infinite-precision) arithmetic the
aggregation over an array of charge entries is invariant under permutation
of the array.  Under the program's IEEE-754 double arithmetic the
invariance fails (see the counterexample on `calculateTotalDiscountsFP`),
so this exact-arithmetic statement is the strongest permutation property
the code supports. -/
theorem sumCharges_perm (l l' : List JsonValue) (h : l.Perm l') :
    calculateTotalDiscounts (some (.jarr l)) = calculateTotalDiscounts (some (.jarr l')) := by
  rw [calculateTotalDiscounts_jarr, calculateTotalDiscounts_jarr]
  exact List.Perm.sum_eq (List.Perm.map entryAmount h)

/-- C7 witness: swapping two concrete entries leaves the sum unchanged. -/
theorem sumCharges_perm_witness :
    ([JsonValue.jobj [("type", JsonValue.jstr "a"), ("amount", JsonValue.jnum (mkRat 1 1))],
      JsonValue.jobj [("type", JsonValue.jstr "b"), ("amount", JsonValue.jnum (mkRat 2 1))]].Perm
      [JsonValue.jobj [("type", JsonValue.jstr "b"), ("amount", JsonValue.jnum (mkRat 2 1))],
       JsonValue.jobj [("type", JsonValue.jstr "a"), ("amount", JsonValue.jnum (mkRat 1 1))]])
    ∧ calculateTotalDiscounts (some (.jarr
        [JsonValue.jobj [("type", JsonValue.jstr "a"), ("amount", JsonValue.jnum (mkRat 1 1))],
         JsonValue.jobj [("type", JsonValue.jstr "b"), ("amount", JsonValue.jnum (mkRat 2 1))]]))
      = calculateTotalDiscounts (some (.jarr
        [JsonValue.jobj [("type", JsonValue.jstr "b"), ("amount", JsonValue.jnum (mkRat 2 1))],
         JsonValue.jobj [("type", JsonValue.jstr "a"), ("amount", JsonValue.jnum (mkRat 1 1))]])) :=
  ⟨List.Perm.swap
      (JsonValue.jobj [("type", JsonValue.jstr "b"), ("amount", JsonValue.jnum (mkRat 2 1))])
      (JsonValue.jobj [("type", JsonValue.jstr "a"), ("amount", JsonValue.jnum (mkRat 1 1))]) [],
   sumCharges_perm _ _
     (List.Perm.swap
       (JsonValue.jobj [("type", JsonValue.jstr "b"), ("amount", JsonValue.jnum (mkRat 2 1))])
       (JsonValue.jobj [("type", JsonValue.jstr "a"), ("amount", JsonValue.jnum (mkRat 1 1))]) [])⟩

/-! ## Lemmas about the binary64 rounding model -/

theorem roundDouble_zero : roundDouble 0 = 0 := by
  simp [roundDouble]

theorem ilog2_eq (e : Int) (r : Rat) (hr : 0 < r)
    (h1 : (2 : Rat) ^ e ≤ r) (h2 : r < (2 : Rat) ^ (e + 1)) : Int.log 2 r = e := by
  have hcast : ((2 : ℕ) : Rat) = (2 : Rat) := by norm_num
  have hle : e ≤ Int.log 2 r :=
    (Int.zpow_le_iff_le_log (by norm_num) hr).mp (by rw [hcast]; exact h1)
  have hlt : Int.log 2 r < e + 1 :=
    (Int.lt_zpow_iff_log_lt (by norm_num) hr).mp (by rw [hcast]; exact h2)
  omega

theorem roundHalfEven_intCast (k : Int) : roundHalfEven ((k : Rat)) = k := by
  simp only [roundHalfEven]
  rw [Int.floor_intCast, sub_self]
  norm_num

theorem roundHalfEven_eq_of_near (y : Rat) (k : Int)
    (h1 : (k : Rat) ≤ y) (h2 : y < (k : Rat) + 1/2) : roundHalfEven y = k := by
  have hf : ⌊y⌋ = k := by
    rw [Int.floor_eq_iff]
    exact ⟨h1, by linarith⟩
  simp only [roundHalfEven]
  rw [hf, if_pos (by linarith : y - (k : Rat) < 1/2)]

/-- A positive `k·2^e` with a 53-bit integer significand `k` is exactly
representable: rounding returns it unchanged. -/
theorem roundDouble_rep (k : Int) (e : Int) (hk1 : 2 ^ 52 ≤ k) (hk2 : k < 2 ^ 53) :
    roundDouble ((k : Rat) * (2 : Rat) ^ e) = (k : Rat) * (2 : Rat) ^ e := by
  have h2e : (0 : Rat) < (2 : Rat) ^ e := zpow_pos (by norm_num) e
  have hk0 : (0 : Rat) < (k : Rat) := by
    have : (0 : ℤ) < k := by positivity
    exact_mod_cast this
  have hx0 : (0 : Rat) < (k : Rat) * (2 : Rat) ^ e := mul_pos hk0 h2e
  have hne : (k : Rat) * (2 : Rat) ^ e ≠ 0 := ne_of_gt hx0
  have habs : |(k : Rat) * (2 : Rat) ^ e| = (k : Rat) * (2 : Rat) ^ e := abs_of_pos hx0
  have hklow : (2 : Rat) ^ (52 : ℤ) ≤ (k : Rat) := by
    rw [show ((52 : ℤ)) = ((52 : ℕ) : ℤ) from rfl, zpow_natCast]
    exact_mod_cast hk1
  have hkhigh : (k : Rat) < (2 : Rat) ^ (53 : ℤ) := by
    rw [show ((53 : ℤ)) = ((53 : ℕ) : ℤ) from rfl, zpow_natCast]
    exact_mod_cast hk2
  have hlog : Int.log 2 ((k : Rat) * (2 : Rat) ^ e) = 52 + e := by
    apply ilog2_eq _ _ hx0
    · rw [zpow_add₀ (by norm_num : (2 : Rat) ≠ 0)]
      exact mul_le_mul_of_nonneg_right hklow (le_of_lt h2e)
    · rw [show (52 + e + 1 : ℤ) = 53 + e by ring,
        zpow_add₀ (by norm_num : (2 : Rat) ≠ 0)]
      exact mul_lt_mul_of_pos_right hkhigh h2e
  have hy : (k : Rat) * (2 : Rat) ^ e / (2 : Rat) ^ e = (k : Rat) := by
    field_simp
  simp only [roundDouble]
  rw [if_neg hne, habs, hlog, show (52 + e - 52 : ℤ) = e by ring, hy,
    roundHalfEven_intCast, if_neg (not_lt.mpr (le_of_lt hx0))]

/-- A value within half an ulp above a representable `k·2^e` rounds down to
`k·2^e`. -/
theorem roundDouble_down (k : Int) (e : Int) (d : Rat)
    (hk1 : 2 ^ 52 ≤ k) (hk2 : k < 2 ^ 53)
    (hd0 : 0 ≤ d) (hd : d < (2 : Rat) ^ e / 2) :
    roundDouble ((k : Rat) * (2 : Rat) ^ e + d) = (k : Rat) * (2 : Rat) ^ e := by
  have h2e : (0 : Rat) < (2 : Rat) ^ e := zpow_pos (by norm_num) e
  have hk0 : (0 : Rat) < (k : Rat) := by
    have : (0 : ℤ) < k := by positivity
    exact_mod_cast this
  have hx0 : (0 : Rat) < (k : Rat) * (2 : Rat) ^ e + d := by positivity
  have hne : (k : Rat) * (2 : Rat) ^ e + d ≠ 0 := ne_of_gt hx0
  have habs : |(k : Rat) * (2 : Rat) ^ e + d| = (k : Rat) * (2 : Rat) ^ e + d :=
    abs_of_pos hx0
  have hklow : (2 : Rat) ^ (52 : ℤ) ≤ (k : Rat) := by
    rw [show ((52 : ℤ)) = ((52 : ℕ) : ℤ) from rfl, zpow_natCast]
    exact_mod_cast hk1
  have hkhigh : (k : Rat) < (2 : Rat) ^ (53 : ℤ) := by
    rw [show ((53 : ℤ)) = ((53 : ℕ) : ℤ) from rfl, zpow_natCast]
    exact_mod_cast hk2
  have hlog : Int.log 2 ((k : Rat) * (2 : Rat) ^ e + d) = 52 + e := by
    apply ilog2_eq _ _ hx0
    · rw [zpow_add₀ (by norm_num : (2 : Rat) ≠ 0)]
      have := mul_le_mul_of_nonneg_right hklow (le_of_lt h2e)
      linarith
    · rw [show (52 + e + 1 : ℤ) = 53 + e by ring,
        zpow_add₀ (by norm_num : (2 : Rat) ≠ 0)]
      have h1 : (k : Rat) + 1 ≤ (2 : Rat) ^ (53 : ℤ) := by
        have : (k : ℤ) + 1 ≤ 2 ^ 53 := by omega
        calc (k : Rat) + 1 = ((k + 1 : ℤ) : Rat) := by push_cast; ring
          _ ≤ (((2 : ℤ) ^ 53 : ℤ) : Rat) := by exact_mod_cast this
          _ = (2 : Rat) ^ (53 : ℤ) := by push_cast; norm_num
      nlinarith [h2e, hd, hkhigh]
  have hy : ((k : Rat) * (2 : Rat) ^ e + d) / (2 : Rat) ^ e
      = (k : Rat) + d / (2 : Rat) ^ e := by
    field_simp
  have hdr : d / (2 : Rat) ^ e < 1 / 2 := by
    rw [div_lt_iff₀ h2e]
    calc d < (2 : Rat) ^ e / 2 := hd
      _ = 1 / 2 * (2 : Rat) ^ e := by ring
  have hdr0 : 0 ≤ d / (2 : Rat) ^ e := by positivity
  have hrhe : roundHalfEven (((k : Rat) * (2 : Rat) ^ e + d) / (2 : Rat) ^ e) = k := by
    rw [hy]
    exact roundHalfEven_eq_of_near _ k (by linarith) (by linarith)
  simp only [roundDouble]
  rw [if_neg hne, habs, hlog, show (52 + e - 52 : ℤ) = e by ring, hrhe,
    if_neg (not_lt.mpr (le_of_lt hx0))]

theorem roundDouble_neg_eq (x : Rat) : roundDouble (-x) = -roundDouble x := by
  by_cases hx : x = 0
  · subst hx
    simp [roundDouble]
  · have hnx : (-x) ≠ 0 := neg_ne_zero.mpr hx
    simp only [roundDouble]
    rw [if_neg hnx, if_neg hx, abs_neg]
    rcases lt_trichotomy x 0 with hlt | heq | hgt
    · rw [if_neg (by linarith : ¬ (-x) < 0), if_pos hlt, neg_neg]
    · exact absurd heq hx
    · rw [if_pos (by linarith : (-x) < 0), if_neg (by linarith : ¬ x < 0)]

theorem calculateTotalDiscountsFP_jarr (l : List JsonValue) :
    calculateTotalDiscountsFP (some (.jarr l))
      = l.foldl (fun total d => addDouble total (entryAmountFP d)) 0 := by
  simp [calculateTotalDiscountsFP, JsonValue.truthy]

theorem foldlFP_cons (a : Rat) (d : JsonValue) (l : List JsonValue) :
    List.foldl (fun total d => addDouble total (entryAmountFP d)) a (d :: l)
      = List.foldl (fun total d => addDouble total (entryAmountFP d))
          (addDouble a (entryAmountFP d)) l := rfl

theorem foldlFP_nil (a : Rat) :
    List.foldl (fun total d => addDouble total (entryAmountFP d)) a [] = a := rfl

theorem roundDouble_1e20 : roundDouble ((10 : Rat) ^ 20) = (10 : Rat) ^ 20 := by
  have h := roundDouble_rep 6103515625000000 14 (by norm_num) (by norm_num)
  rw [show ((6103515625000000 : ℤ) : Rat) * (2 : Rat) ^ (14 : ℤ) = (10 : Rat) ^ 20 by
    push_cast
    norm_num] at h
  exact h

theorem roundDouble_one : roundDouble (1 : Rat) = 1 := by
  have h := roundDouble_rep (2 ^ 52) (-52) (le_refl _) (by norm_num)
  rw [show (((2 : ℤ) ^ 52 : ℤ) : Rat) * (2 : Rat) ^ (-52 : ℤ) = 1 by
    push_cast
    norm_num] at h
  exact h

/-- The pivotal absorption step: in binary64, `1e20 + 1` rounds back to
`1e20` (the ulp at `1e20` is `2^14 = 16384`). -/
theorem roundDouble_1e20_add_one :
    roundDouble ((10 : Rat) ^ 20 + 1) = (10 : Rat) ^ 20 := by
  have h := roundDouble_down 6103515625000000 14 1 (by norm_num) (by norm_num)
    (by norm_num) (by norm_num)
  rw [show ((6103515625000000 : ℤ) : Rat) * (2 : Rat) ^ (14 : ℤ) = (10 : Rat) ^ 20 by
    push_cast
    norm_num] at h
  exact h

/-- C7 counterexample: under the program's IEEE-754 double arithmetic the
`reduce` of `calculateTotalDiscounts` is *not* permutation-invariant.  With
amounts `[1e20, 1, -1e20]` the sum is `0` (the `1` is absorbed when added
to `1e20`), while the permutation `[1e20, -1e20, 1]` sums to `1`. -/
theorem sumCharges_perm_counterexample :
    ([JsonValue.jobj [("amount", JsonValue.jnum ((10 : Rat) ^ 20))],
      JsonValue.jobj [("amount", JsonValue.jnum (1 : Rat))],
      JsonValue.jobj [("amount", JsonValue.jnum (-((10 : Rat) ^ 20)))]].Perm
     [JsonValue.jobj [("amount", JsonValue.jnum ((10 : Rat) ^ 20))],
      JsonValue.jobj [("amount", JsonValue.jnum (-((10 : Rat) ^ 20)))],
      JsonValue.jobj [("amount", JsonValue.jnum (1 : Rat))]])
    ∧ calculateTotalDiscountsFP (some (.jarr
        [JsonValue.jobj [("amount", JsonValue.jnum ((10 : Rat) ^ 20))],
         JsonValue.jobj [("amount", JsonValue.jnum (1 : Rat))],
         JsonValue.jobj [("amount", JsonValue.jnum (-((10 : Rat) ^ 20)))]])) = 0
    ∧ calculateTotalDiscountsFP (some (.jarr
        [JsonValue.jobj [("amount", JsonValue.jnum ((10 : Rat) ^ 20))],
         JsonValue.jobj [("amount", JsonValue.jnum (-((10 : Rat) ^ 20)))],
         JsonValue.jobj [("amount", JsonValue.jnum (1 : Rat))]])) = 1
    ∧ (0 : Rat) ≠ 1 := by
  have e1 : entryAmountFP (JsonValue.jobj [("amount", JsonValue.jnum ((10 : Rat) ^ 20))])
      = (10 : Rat) ^ 20 := by
    show roundDouble ((10 : Rat) ^ 20) = _
    exact roundDouble_1e20
  have e2 : entryAmountFP (JsonValue.jobj [("amount", JsonValue.jnum (1 : Rat))]) = 1 := by
    show roundDouble (1 : Rat) = 1
    exact roundDouble_one
  have e3 : entryAmountFP (JsonValue.jobj [("amount", JsonValue.jnum (-((10 : Rat) ^ 20)))])
      = -((10 : Rat) ^ 20) := by
    show roundDouble (-((10 : Rat) ^ 20)) = _
    rw [roundDouble_neg_eq, roundDouble_1e20]
  have s1 : addDouble 0 ((10 : Rat) ^ 20) = (10 : Rat) ^ 20 := by
    unfold addDouble
    rw [zero_add]
    exact roundDouble_1e20
  have s2 : addDouble ((10 : Rat) ^ 20) 1 = (10 : Rat) ^ 20 := by
    unfold addDouble
    exact roundDouble_1e20_add_one
  have s3 : addDouble ((10 : Rat) ^ 20) (-((10 : Rat) ^ 20)) = 0 := by
    unfold addDouble
    rw [show (10 : Rat) ^ 20 + -((10 : Rat) ^ 20) = 0 by ring]
    exact roundDouble_zero
  have s4 : addDouble 0 1 = 1 := by
    unfold addDouble
    rw [zero_add]
    exact roundDouble_one
  refine ⟨List.Perm.cons _ (List.Perm.swap _ _ []), ?_, ?_, by norm_num⟩
  · rw [calculateTotalDiscountsFP_jarr, foldlFP_cons, e1, s1, foldlFP_cons, e2, s2,
      foldlFP_cons, e3, s3, foldlFP_nil]
  · rw [calculateTotalDiscountsFP_jarr, foldlFP_cons, e1, s1, foldlFP_cons, e3, s3,
      foldlFP_cons, e2, s4, foldlFP_nil]

/-! ## Lemmas about `replaceAll` and `trimChars` -/

theorem replaceAllGo_nil (pat : List Char) (f : Nat) : replaceAllGo pat f [] = [] := by
  cases f <;> rfl

theorem replaceAllGo_fuel (pat : List Char) :
    ∀ (n : Nat) (s : List Char) (f g : Nat), s.length ≤ n → s.length ≤ f → s.length ≤ g →
      replaceAllGo pat f s = replaceAllGo pat g s := by
  intro n
  induction n with
  | zero =>
      intro s f g hn _ _
      have hs : s = [] := List.length_eq_zero.mp (Nat.le_zero.mp hn)
      subst hs
      rw [replaceAllGo_nil, replaceAllGo_nil]
  | succ n ih =>
      intro s f g hn hf hg
      cases s with
      | nil => rw [replaceAllGo_nil, replaceAllGo_nil]
      | cons c rest =>
          cases f with
          | zero => simp at hf
          | succ f' =>
              cases g with
              | zero => simp at hg
              | succ g' =>
                  have hplen : pat ≠ [] → 1 ≤ pat.length := by
                    intro hp
                    cases pat with
                    | nil => exact absurd rfl hp
                    | cons a as => simp
                  simp only [replaceAllGo]
                  by_cases h : pat ≠ [] ∧ pat.isPrefixOf (c :: rest) = true
                  · rw [if_pos h, if_pos h]
                    have h1 : 1 ≤ pat.length := hplen h.1
                    simp only [List.length_cons] at hn hf hg
                    apply ih <;> simp only [List.length_drop, List.length_cons] <;> omega
                  · rw [if_neg h, if_neg h]
                    have hr : rest.length ≤ n := by
                      simp only [List.length_cons] at hn
                      omega
                    have hrf : rest.length ≤ f' := by
                      simp only [List.length_cons] at hf
                      omega
                    have hrg : rest.length ≤ g' := by
                      simp only [List.length_cons] at hg
                      omega
                    rw [ih rest f' g' hr hrf hrg]

theorem replaceAll_nil (pat : List Char) : replaceAll pat [] = [] := rfl

theorem replaceAll_cons_neg (pat : List Char) (c : Char) (s : List Char)
    (h : ¬ (pat ≠ [] ∧ pat.isPrefixOf (c :: s) = true)) :
    replaceAll pat (c :: s) = c :: replaceAll pat s := by
  show replaceAllGo pat (s.length + 1) (c :: s) = c :: replaceAllGo pat s.length s
  simp only [replaceAllGo]
  rw [if_neg h]

theorem replaceAll_cons_pos (pat : List Char) (c : Char) (s : List Char)
    (h : pat ≠ [] ∧ pat.isPrefixOf (c :: s) = true) :
    replaceAll pat (c :: s) = replaceAll pat ((c :: s).drop pat.length) := by
  show replaceAllGo pat (s.length + 1) (c :: s) = _
  simp only [replaceAllGo]
  rw [if_pos h]
  have h1 : 1 ≤ pat.length := by
    cases hp : pat with
    | nil => exact absurd hp h.1
    | cons a as => simp
  have hd : ((c :: s).drop pat.length).length = s.length + 1 - pat.length := by
    simp [List.length_drop]
  exact replaceAllGo_fuel pat s.length _ _ _ (by omega) (by omega) (by omega)

theorem replaceAll_cons_of_head_bne (pat : List Char) (c : Char) (s : List Char)
    (h : pat.head? ≠ some c) :
    replaceAll pat (c :: s) = c :: replaceAll pat s := by
  apply replaceAll_cons_neg
  rintro ⟨hne, hpre⟩
  cases pat with
  | nil => exact hne rfl
  | cons a pt =>
      simp only [List.isPrefixOf, Bool.and_eq_true] at hpre
      exact h (by rw [eq_of_beq hpre.1]; rfl)

theorem replaceAll_eat_pattern (pat : List Char) (hne : pat ≠ []) (s : List Char) :
    replaceAll pat (pat ++ s) = replaceAll pat s := by
  cases hp : pat with
  | nil => exact absurd hp hne
  | cons a pt =>
      rw [← hp]
      have hcons : pat ++ s = a :: (pt ++ s) := by rw [hp]; rfl
      rw [hcons, replaceAll_cons_pos pat a (pt ++ s)
        ⟨hne, by rw [← hcons]; exact List.isPrefixOf_iff_prefix.mpr (List.prefix_append pat s)⟩,
        ← hcons]
      rw [List.drop_left pat s]

/-- The key distribution law: a global literal replace distributes over an
append whose boundary starts with a character the pattern does not contain
(so no occurrence can straddle the boundary). -/
theorem replaceAll_append_sep (pat : List Char) (hne : pat ≠ []) (c : Char) (hc : c ∉ pat) :
    ∀ (n : Nat) (t u : List Char), t.length ≤ n →
      replaceAll pat (t ++ c :: u) = replaceAll pat t ++ replaceAll pat (c :: u) := by
  intro n
  induction n with
  | zero =>
      intro t u hn
      have ht : t = [] := List.length_eq_zero.mp (Nat.le_zero.mp hn)
      subst ht
      rw [replaceAll_nil, List.nil_append, List.nil_append]
  | succ n ih =>
      intro t u hn
      cases t with
      | nil => rw [replaceAll_nil, List.nil_append, List.nil_append]
      | cons a t' =>
          have hassoc : (a :: t') ++ c :: u = a :: (t' ++ c :: u) := rfl
          by_cases h : pat ≠ [] ∧ pat.isPrefixOf (a :: (t' ++ c :: u)) = true
          · -- the pattern matches at the head; it must lie inside `a :: t'`
            have hpre : pat <+: (a :: (t' ++ c :: u)) :=
              List.isPrefixOf_iff_prefix.mp h.2
            have h1 : 1 ≤ pat.length := by
              cases hp : pat with
              | nil => exact absurd hp hne
              | cons x xs => simp
            have hlen : pat.length ≤ (a :: t').length := by
              by_contra hgt
              push_neg at hgt
              obtain ⟨w, hw⟩ := hpre
              have hcmem : c ∈ pat := by
                have e2 : (pat ++ w)[(a :: t').length]? = some c := by
                  rw [hw, ← hassoc, List.getElem?_append_right (le_refl (a :: t').length)]
                  simp
                have e1 : (pat ++ w)[(a :: t').length]? = pat[(a :: t').length]? :=
                  List.getElem?_append_left hgt
                have e3 : pat[(a :: t').length]? = some c := by rw [← e1, e2]
                obtain ⟨hlt, heq⟩ := List.getElem?_eq_some_iff.mp e3
                exact heq ▸ List.getElem_mem hlt
              exact hc hcmem
            have hpre' : pat <+: (a :: t') := by
              have htake : pat = ((a :: t') ++ (c :: u)).take pat.length := by
                rw [← hassoc] at hpre
                exact List.prefix_iff_eq_take.mp hpre
              rw [List.take_append_of_le_length hlen] at htake
              rw [htake]
              exact List.take_prefix pat.length (a :: t')
            have hdropapp : (a :: (t' ++ c :: u)).drop pat.length
                = ((a :: t').drop pat.length) ++ c :: u := by
              rw [← hassoc]
              exact List.drop_append_of_le_length hlen
            have hdlen : ((a :: t').drop pat.length).length ≤ n := by
              have := List.length_drop pat.length (a :: t')
              simp only [List.length_cons] at this hn ⊢
              omega
            rw [hassoc, replaceAll_cons_pos pat a (t' ++ c :: u) h, hdropapp,
              ih _ u hdlen,
              replaceAll_cons_pos pat a t' ⟨hne, List.isPrefixOf_iff_prefix.mpr hpre'⟩]
          · -- no match at the head of either list
            have h' : ¬ (pat ≠ [] ∧ pat.isPrefixOf (a :: t') = true) := by
              rintro ⟨-, hpre⟩
              exact h ⟨hne, List.isPrefixOf_iff_prefix.mpr
                ((List.isPrefixOf_iff_prefix.mp hpre).trans
                  ⟨c :: u, by rw [hassoc]⟩)⟩
            have ht' : t'.length ≤ n := by
              simp only [List.length_cons] at hn
              omega
            rw [hassoc, replaceAll_cons_neg pat a (t' ++ c :: u) h,
              ih t' u ht', replaceAll_cons_neg pat a t' h', List.cons_append]

theorem trimChars_cons_ws (a : Char) (l : List Char) (h : jsWhitespace a = true) :
    trimChars (a :: l) = trimChars l := by
  unfold trimChars
  rw [List.dropWhile_cons_of_pos h]

theorem trimChars_append_ws (l : List Char) (b : Char) (h : jsWhitespace b = true) :
    trimChars (l ++ [b]) = trimChars l := by
  unfold trimChars
  rw [List.dropWhile_append]
  by_cases hl : (l.dropWhile jsWhitespace).isEmpty = true
  · rw [if_pos hl, List.dropWhile_cons_of_pos h]
    rw [List.isEmpty_iff.mp hl]
    rfl
  · rw [if_neg hl, List.reverse_append]
    have hb : List.reverse [b] ++ (l.dropWhile jsWhitespace).reverse
        = b :: (l.dropWhile jsWhitespace).reverse := rfl
    rw [hb, List.dropWhile_cons_of_pos h]

/-! ## Claim C8 -/

theorem cleanChars_fenceWrap (t : List Char) :
    cleanChars (("```json\n").data ++ t ++ ("\n```").data) = cleanChars t := by
  have h1 : fenceJsonPat ≠ [] := by decide
  have h2 : fencePat ≠ [] := by decide
  have hc1 : '\n' ∉ fenceJsonPat := by decide
  have hc2 : '\n' ∉ fencePat := by decide
  have hw : jsWhitespace '\n' = true := rfl
  have hsplit : ("```json\n").data ++ t ++ ("\n```").data
      = fenceJsonPat ++ ('\n' :: (t ++ '\n' :: fencePat)) := by
    rw [show ("```json\n").data = fenceJsonPat ++ ['\n'] from rfl,
      show ("\n```").data = '\n' :: fencePat from rfl]
    simp [List.append_assoc]
  rw [hsplit]
  unfold cleanChars
  rw [replaceAll_eat_pattern fenceJsonPat h1,
    replaceAll_cons_of_head_bne fenceJsonPat '\n' _ (by decide),
    replaceAll_append_sep fenceJsonPat h1 '\n' hc1 t.length t fencePat (le_refl _),
    replaceAll_cons_of_head_bne fenceJsonPat '\n' fencePat (by decide),
    show replaceAll fenceJsonPat fencePat = fencePat from rfl,
    replaceAll_cons_of_head_bne fencePat '\n' _ (by decide),
    replaceAll_append_sep fencePat h2 '\n' hc2
      (replaceAll fenceJsonPat t).length (replaceAll fenceJsonPat t) fencePat (le_refl _),
    replaceAll_cons_of_head_bne fencePat '\n' fencePat (by decide),
    show replaceAll fencePat fencePat = [] from rfl,
    trimChars_cons_ws '\n' _ hw,
    trimChars_append_ws _ '\n' hw]

theorem cleanedTextOf_fenceWrap (t : String) :
    cleanedTextOf (fenceWrap t) = cleanedTextOf t := by
  unfold cleanedTextOf fenceWrap
  have hd : ("```json\n" ++ t ++ "\n```").data
      = ("```json\n").data ++ t.data ++ ("\n```").data := by
    rw [String.data_append, String.data_append]
  rw [hd, cleanChars_fenceWrap t.data]

/-- C8 counterexample: for a completion that is not JSON even after
stripping, the two runs produce *different* records — the degraded `raw`
field keeps the original text, fences included. -/
theorem normalize_fenceWrap_counterexample :
    (parseAndNormalize (fenceWrap "Sorry")).getField "raw"
        = some (JsonValue.jstr "```json\nSorry\n```")
    ∧ (parseAndNormalize "Sorry").getField "raw" = some (JsonValue.jstr "Sorry")
    ∧ JsonValue.jstr "```json\nSorry\n```" ≠ JsonValue.jstr "Sorry" :=
  ⟨rfl, rfl, fun h => absurd (JsonValue.jstr.inj h) (by decide)⟩

/-- C8 (amended): wrapping a completion in a ```json fence never changes the
cleaned text, hence the parse outcome; whenever the cleaned text parses as
JSON, normalization of the wrapped and unwrapped completions returns the
identical record.  (If the parse fails, the two degraded records differ in
`raw`, which keeps the original, still-fenced text.) -/
theorem normalize_fenceWrap (t : String)
    (h : (jsonParse (cleanedTextOf t)).isSome = true) :
    parseAndNormalize (fenceWrap t) = parseAndNormalize t := by
  unfold parseAndNormalize
  rw [cleanedTextOf_fenceWrap]
  cases hp : jsonParse (cleanedTextOf t) with
  | none => rw [hp] at h; simp at h
  | some p => rfl

/-- C8 witness: a small JSON completion parses the same wrapped or not. -/
theorem normalize_fenceWrap_witness :
    (jsonParse (cleanedTextOf "\x7b\"a\":\"b\"\x7d")).isSome = true
    ∧ parseAndNormalize (fenceWrap "\x7b\"a\":\"b\"\x7d")
        = parseAndNormalize "\x7b\"a\":\"b\"\x7d" :=
  ⟨rfl, normalize_fenceWrap "\x7b\"a\":\"b\"\x7d" rfl⟩

/-! ## Digit-rendering lemmas -/

theorem digitChar_isDigit (d : Nat) : (digitChar d).isDigit = true := by
  unfold digitChar
  split <;> rfl

theorem natToCharsGo_digits (f : Nat) :
    ∀ (n : Nat) (acc : List Char), (∀ c ∈ acc, c.isDigit = true) →
      ∀ c ∈ natToCharsGo f n acc, c.isDigit = true := by
  induction f with
  | zero => intro n acc hacc c hc; exact hacc c hc
  | succ f ih =>
      intro n acc hacc c hc
      simp only [natToCharsGo] at hc
      by_cases hn : n = 0
      · rw [if_pos hn] at hc
        exact hacc c hc
      · rw [if_neg hn] at hc
        refine ih (n / 10) _ ?_ c hc
        intro c' hc'
        rcases List.mem_cons.mp hc' with rfl | h'
        · exact digitChar_isDigit _
        · exact hacc _ h'

theorem natToChars_digits (n : Nat) : ∀ c ∈ natToChars n, c.isDigit = true := by
  unfold natToChars
  by_cases hn : n = 0
  · rw [if_pos hn]
    intro c hc
    simp only [List.mem_singleton] at hc
    subst hc
    rfl
  · rw [if_neg hn]
    exact natToCharsGo_digits (n + 1) n [] (by intro c hc; simp at hc)

theorem natToCharsGo_length (f : Nat) :
    ∀ (n : Nat) (acc : List Char), acc.length ≤ (natToCharsGo f n acc).length := by
  induction f with
  | zero => intro n acc; simp [natToCharsGo]
  | succ f ih =>
      intro n acc
      simp only [natToCharsGo]
      by_cases hn : n = 0
      · rw [if_pos hn]
      · rw [if_neg hn]
        calc acc.length ≤ (digitChar (n % 10) :: acc).length := by simp
          _ ≤ _ := ih (n / 10) _

theorem natToChars_ne_nil (n : Nat) : natToChars n ≠ [] := by
  unfold natToChars
  by_cases hn : n = 0
  · rw [if_pos hn]; simp
  · rw [if_neg hn]
    intro h
    have hstep : natToCharsGo (n + 1) n [] = natToCharsGo n (n / 10) [digitChar (n % 10)] := by
      simp only [natToCharsGo]
      rw [if_neg hn]
    rw [hstep] at h
    have hlen := natToCharsGo_length n (n / 10) [digitChar (n % 10)]
    rw [h] at hlen
    simp at hlen

theorem pad2Chars_shape :
    ∀ m : Nat, m < 100 → (pad2Chars m).length = 2 ∧ (pad2Chars m).all Char.isDigit = true := by
  decide

theorem list_len_two {l : List Char} (h : l.length = 2) : ∃ a b, l = [a, b] := by
  cases l with
  | nil => simp at h
  | cons a l1 =>
      cases l1 with
      | nil => simp at h
      | cons b l2 =>
          cases l2 with
          | nil => exact ⟨a, b, rfl⟩
          | cons c l3 => simp at h

theorem matchesTwoDecimal_eq (s : String) (d1 d2 : Char) (rest : List Char)
    (h : s.data.reverse = d2 :: d1 :: '.' :: rest) :
    matchesTwoDecimal s
      = (d1.isDigit && d2.isDigit && !rest.isEmpty && rest.all Char.isDigit) := by
  unfold matchesTwoDecimal
  rw [h]
  exact rfl

/-- Any non-negative rational renders under `toFixed2` as digits, a point,
and exactly two digits. -/
theorem matchesTwoDecimal_toFixed2 (x : Rat) (hx : 0 ≤ x) :
    matchesTwoDecimal (toFixed2 x) = true := by
  have hnum : ¬ x.num < 0 := by
    have := Rat.num_nonneg.mpr hx
    omega
  set n := (200 * x.num.natAbs + x.den) / (2 * x.den) with hn
  obtain ⟨hlen, hall⟩ := pad2Chars_shape (n % 100) (Nat.mod_lt _ (by norm_num))
  obtain ⟨d1, d2, hpad⟩ := list_len_two hlen
  have hrev : (toFixed2 x).data.reverse = d2 :: d1 :: '.' :: (natToChars (n / 100)).reverse := by
    unfold toFixed2
    rw [if_neg hnum, ← hn, hpad]
    show (natToChars (n / 100) ++ ['.', d1, d2]).reverse = _
    rw [List.reverse_append]
    rfl
  rw [matchesTwoDecimal_eq _ d1 d2 _ hrev]
  have hd1 : d1.isDigit = true := by
    have := List.all_eq_true.mp hall
    exact this d1 (by rw [hpad]; simp)
  have hd2 : d2.isDigit = true := by
    have := List.all_eq_true.mp hall
    exact this d2 (by rw [hpad]; simp)
  have hne : ((natToChars (n / 100)).reverse).isEmpty = false := by
    rw [List.isEmpty_eq_false_iff_exists_mem]
    have := natToChars_ne_nil (n / 100)
    cases hc : natToChars (n / 100) with
    | nil => exact absurd hc this
    | cons a l => exact ⟨a, by simp⟩
  have hrall : ((natToChars (n / 100)).reverse).all Char.isDigit = true := by
    rw [List.all_eq_true]
    intro c hc
    exact natToChars_digits (n / 100) c (List.mem_reverse.mp hc)
  rw [hd1, hd2, hne, hrall]
  rfl

/-! ## Claim C5 -/

/-- C5 counterexample: a tagged value whose `type` is the empty string is a
"tagged value with another type", yet `formatValue` renders the bare amount
`"5.00"` with no `" <type>"` suffix (the suffix is guarded by the
truthiness of `type`, and `""` is falsy). -/
theorem formatMoney_counterexample :
    formatValue (some (.jobj [("type", .jstr ""), ("amount", .jnum (mkRat 5 1))])) = "5.00"
    ∧ "5.00" ≠ "5.00 " :=
  ⟨rfl, by decide⟩

/-- C5 (amended): the case analysis of `formatValue`:
`undefined`/`null` render `"-"`; a number renders via `toFixed(2)`, and for
every non-negative number the result matches `^\d+\.\d\x7b2\x7d$`; a tagged
value with amount and type `"USD"` gets a `$` prefix; a tagged value with a
*non-empty* type other than `"USD"` gets a ` <type>` suffix; a tagged value
with an empty (falsy) type renders the bare amount; an array renders its
entries joined by `", "`, an entry with a truthy type and an amount as
`"<type>: <amount>"`; all remaining shapes fall back to a generic string
rendering (`String(...)` for primitives, `JSON.stringify` otherwise). -/
theorem formatMoney_cases :
    (formatValue none = "-")
    ∧ (formatValue (some .jnull) = "-")
    ∧ (∀ q : Rat, formatValue (some (.jnum q)) = toFixed2 q)
    ∧ (∀ q : Rat, 0 ≤ q → matchesTwoDecimal (formatValue (some (.jnum q))) = true)
    ∧ (∀ fs am, (JsonValue.jobj fs).getField "amount" = some am →
        (JsonValue.jobj fs).getField "type" = some (.jstr "USD") →
        formatValue (some (.jobj fs)) = "$" ++ jsToString (renderAmount am))
    ∧ (∀ fs am ty, (JsonValue.jobj fs).getField "amount" = some am →
        (JsonValue.jobj fs).getField "type" = some (.jstr ty) → ty ≠ "" → ty ≠ "USD" →
        formatValue (some (.jobj fs)) = jsToString (renderAmount am) ++ " " ++ ty)
    ∧ (∀ fs am, (JsonValue.jobj fs).getField "amount" = some am →
        (JsonValue.jobj fs).getField "type" = some (.jstr "") →
        formatValue (some (.jobj fs)) = jsToString (renderAmount am))
    ∧ (∀ l, formatValue (some (.jarr l)) = String.intercalate ", " (l.map formatEntry))
    ∧ (∀ fs ty am, (JsonValue.jobj fs).getField "type" = some ty → ty.truthy = true →
        (JsonValue.jobj fs).getField "amount" = some am →
        formatEntry (.jobj fs) = jsToString ty ++ ": " ++ jsToString (renderAmount am))
    ∧ (∀ s, formatValue (some (.jstr s)) = s)
    ∧ (∀ b, formatValue (some (.jbool b)) = (if b then "true" else "false"))
    ∧ (∀ fs, (JsonValue.jobj fs).getField "amount" = none →
        formatValue (some (.jobj fs)) = jsonStringify (.jobj fs)) := by
  refine ⟨rfl, rfl, fun q => rfl, ?_, ?_, ?_, ?_, fun l => rfl, ?_, fun s => rfl,
    fun b => rfl, ?_⟩
  · intro q hq
    exact matchesTwoDecimal_toFixed2 q hq
  · intro fs am ham hty
    simp only [formatValue, ham, hty]
    rfl
  · intro fs am ty ham hty h1 h2
    have htr : (JsonValue.jstr ty).truthy = true := by
      simp [JsonValue.truthy, h1]
    have husd : isUSD (.jstr ty) = false := by
      simp [isUSD, h2]
    simp only [formatValue, ham, hty, htr, if_true, husd, Bool.false_eq_true, if_false]
    rfl
  · intro fs am ham hty
    simp only [formatValue, ham, hty]
    rfl
  · intro fs ty am hty htr ham
    simp only [formatEntry, hty, ham, htr, if_true]
  · intro fs ham
    simp only [formatValue, ham]

/-- C5 witness: a `$`-prefixed tagged USD amount, and the two-decimal
pattern at `42.99`. -/
theorem formatMoney_cases_witness :
    ((JsonValue.jobj [("type", JsonValue.jstr "USD"), ("amount", JsonValue.jnum (mkRat 5 1))]).getField
        "amount" = some (JsonValue.jnum (mkRat 5 1)))
    ∧ ((JsonValue.jobj [("type", JsonValue.jstr "USD"), ("amount", JsonValue.jnum (mkRat 5 1))]).getField
        "type" = some (JsonValue.jstr "USD"))
    ∧ formatValue (some (.jobj [("type", JsonValue.jstr "USD"),
        ("amount", JsonValue.jnum (mkRat 5 1))])) = "$5.00" :=
  ⟨rfl, rfl,
    formatMoney_cases.2.2.2.2.1
      [("type", JsonValue.jstr "USD"), ("amount", JsonValue.jnum (mkRat 5 1))]
      (JsonValue.jnum (mkRat 5 1)) rfl rfl⟩

section SanityExamples

example : cleanedTextOf "  hi  " = "hi" := rfl

example : cleanedTextOf "```json\n\x7b\x7d\n```" = "\x7b\x7d" := rfl

example : jsonParse "\x7b\"taxes\":0\x7d" = some (.jobj [("taxes", .jnum (mkRat 0 1))]) := rfl

example : jsonParse "3.45" = some (.jnum (mkRat 345 100)) := rfl

example : jsonParse "[1, 2]" = some (.jarr [.jnum (mkRat 1 1), .jnum (mkRat 2 1)]) := rfl

example : jsonParse "Sorry, I cannot help." = none := rfl

example : jsonParse " \"a\\nb\" " = some (.jstr "a\nb") := rfl

example : jsonParse "-1.5e2" = some (.jnum (mkRat (-150) 1)) := rfl

example : jsonParse "\x7b\"a\":[true,false,null]\x7d"
    = some (.jobj [("a", .jarr [.jbool true, .jbool false, .jnull])]) := rfl

example : jsonParse "01" = none := rfl

example : jsonParse "[1,]" = none := rfl

example : parseAndNormalize "Sorry, I cannot help."
    = .jobj [("raw", .jstr "Sorry, I cannot help."),
             ("error", .jstr "Could not parse structured data")] := rfl

example : parseAndNormalize "```json\n\x7b\"taxes\":\x7b\"type\":\"Sales Tax\",\"amount\":3.45\x7d\x7d\n```"
    = .jobj [("taxes", .jarr [.jobj [("type", .jstr "Sales Tax"), ("amount", .jnum (mkRat 345 100))]])] := rfl

example : parseAndNormalize "\x7b\"taxes\":5\x7d" = .jobj [("taxes", .jarr [])] := rfl

example : parseAndNormalize "\x7b\"taxes\":\"\"\x7d" = .jobj [("taxes", .jstr "")] := rfl

example :
    processParsedData (.jobj [("taxes", .jnum 0)]) = .jobj [("taxes", .jnum 0)] := rfl

example :
    processParsedData (.jobj [("taxes", .jnum 5)]) = .jobj [("taxes", .jarr [])] := rfl

example :
    processParsedData (.jobj [("taxes", .jobj [("type", .jstr "Sales Tax"), ("amount", .jnum (69/20))])])
      = .jobj [("taxes", .jarr [.jobj [("type", .jstr "Sales Tax"), ("amount", .jnum (69/20))]])] := rfl

example :
    processParsedData (.jobj [("items", .jstr "x"), ("taxes", .jstr "abc")])
      = .jobj [("items", .jarr [.jstr "x"]), ("taxes", .jarr [])] := rfl

example : formatValue none = "-" := rfl

example : formatValue (some .jnull) = "-" := rfl

example : formatValue (some (.jnum (mkRat 4299 100))) = "42.99" := rfl

example : formatValue (some (.jnum (mkRat (-15) 10))) = "-1.50" := rfl

example : formatValue (some (.jobj [("type", .jstr "USD"), ("amount", .jnum (mkRat 5 1))]))
    = "$5.00" := rfl

example : formatValue (some (.jobj [("type", .jstr "EUR"), ("amount", .jnum (mkRat 5 1))]))
    = "5.00 EUR" := rfl

example : formatValue (some (.jobj [("type", .jstr ""), ("amount", .jnum (mkRat 5 1))]))
    = "5.00" := rfl

example :
    formatValue (some (.jarr [.jobj [("type", .jstr "Sales Tax"), ("amount", .jnum (mkRat 345 100))],
                              .jobj [("type", .jstr "City Tax"), ("amount", .jstr "1.20")]]))
      = "Sales Tax: 3.45, City Tax: 1.20" := rfl

example : formatValue (some (.jstr "cash")) = "cash" := rfl

example : matchesTwoDecimal "42.99" = true := rfl

example : matchesTwoDecimal "42.9" = false := rfl

example : matchesTwoDecimal ".99" = false := rfl

example : parseFloatOpt "3.45abc" = some (mkRat 345 100) := rfl

example : parseFloatOpt "abc" = none := rfl

example : parseFloatOpt "  -2e1" = some (mkRat (-20) 1) := rfl

example : amountNum (some (.jstr "xyz")) = 0 := rfl

example : (POST (some (.jstr "   ")) (.success "x")).1.status = 400 := rfl

example : (POST (some (.jstr "   ")) (.success "x")).2 = false := rfl

example : (POST none (.success "x")).1.status = 400 := rfl

example : (POST (some (.jstr "receipt")) (.failure 503)).1.status = 503 := rfl

end SanityExamples
